import Mathlib

/-!
Verification of the train-data processing pipeline (`train_processor.py`,
`data_processing.py`) against its natural-language specification.

The embedding models the object-dtype dataframe cells that flow through the
pipeline (`CellVal`), Python's `str()` / `.str.lower()` on them, Python dict
construction and lookup, pandas `unique`, the categorical/boolean encoders of
`DataProcessor.encode_categorical_columns`, the two filter stages
(`DataProcessor.process_data` and `data_processing._apply_filters`), the
timestamp parsing and delta computation, the column-schema pipeline, the
dtype-to-parquet-type classification of `save_processed_data`, and the
partition-count heuristics.
-/

/-- A cell of an object-dtype dataframe column: a string read from the CSV,
a missing value (`NaN`), or an integer produced by encoding. -/
inductive CellVal
  | str (s : String)
  | na
  | intv (n : Int)
deriving DecidableEq, Repr

/-- Python `str()` applied to a cell: strings are unchanged, `float('nan')`
prints as `"nan"`, integers print in decimal (models `.astype(str)`). -/
def pyStr : CellVal → String
  | .str s => s
  | .na => "nan"
  | .intv n => toString n

/-- The ASCII upper-to-lower table used by `.str.lower()` on the data that
reaches the encoder (all relevant tokens are ASCII). -/
def lowerTable : List (Char × Char) :=
  [('A', 'a'), ('B', 'b'), ('C', 'c'), ('D', 'd'), ('E', 'e'), ('F', 'f'),
   ('G', 'g'), ('H', 'h'), ('I', 'i'), ('J', 'j'), ('K', 'k'), ('L', 'l'),
   ('M', 'm'), ('N', 'n'), ('O', 'o'), ('P', 'p'), ('Q', 'q'), ('R', 'r'),
   ('S', 's'), ('T', 't'), ('U', 'u'), ('V', 'v'), ('W', 'w'), ('X', 'x'),
   ('Y', 'y'), ('Z', 'z')]

/-- Lower-case one character via the table. -/
def asciiLowerChar (c : Char) : Char :=
  ((lowerTable.find? (fun p => p.1 = c)).map (fun p => p.2)).getD c

/-- Python `.str.lower()` on an (ASCII) string. -/
def pyLower (s : String) : String := ⟨s.data.map asciiLowerChar⟩

/-- Python dict insertion: an existing key is updated in place (keeping its
position), a new key is appended (insertion order). -/
def dictInsert {α : Type} (m : List (String × α)) (k : String) (v : α) :
    List (String × α) :=
  if m.any (fun p => p.1 = k) then
    m.map (fun p => if p.1 = k then (k, v) else p)
  else m ++ [(k, v)]

/-- Python dict built from a list of key-value pairs (later pairs override
earlier ones, first insertion fixes the position). -/
def dictOfList {α : Type} (l : List (String × α)) : List (String × α) :=
  l.foldl (fun m p => dictInsert m p.1 p.2) []

/-- Python dict lookup, `None` when the key is absent (also models
`Series.map(dict)` per element, which yields null on a missing key). -/
def dictGet {α : Type} (m : List (String × α)) (k : String) : Option α :=
  (m.find? (fun p => p.1 = k)).map (fun p => p.2)

/-- pandas `Series.unique()`: the distinct values in first-occurrence order. -/
def pdUnique {α : Type} [DecidableEq α] (l : List α) : List α :=
  l.foldl (fun acc x => if x ∈ acc then acc else acc ++ [x]) []

/-- Lexicographic (code-point) order on character lists, as Python's `<=` on
strings compares them. -/
def charListLe : List Char → List Char → Bool
  | [], _ => true
  | _ :: _, [] => false
  | a :: as, b :: bs => if a = b then charListLe as bs else decide (a < b)

/-- Strict lexicographic (code-point) order on character lists. -/
def charListLt : List Char → List Char → Bool
  | [], [] => false
  | [], _ :: _ => true
  | _ :: _, [] => false
  | a :: as, b :: bs => if a = b then charListLt as bs else decide (a < b)

/-- Python's `<=` on strings (code-point lexicographic). -/
def sLe (s t : String) : Prop := charListLe s.data t.data = true

/-- Python's `<` on strings (code-point lexicographic). -/
def sLt (s t : String) : Prop := charListLt s.data t.data = true

instance : DecidableRel sLe := fun s t => by unfold sLe; infer_instance

instance : DecidableRel sLt := fun s t => by unfold sLt; infer_instance

/-- The distinct stringified values of a column: `str(v) for v in unique()`. -/
def strsOf (col : List CellVal) : List String := (pdUnique col).map pyStr

/-- The sorted stringified distinct values, `sorted(str(v) for v in unique_values)`. -/
def sortedStrs (col : List CellVal) : List String :=
  List.insertionSort sLe (strsOf col)

/-- The categorical encoding map of `encode_categorical_columns`:
`{str(val): idx for idx, val in enumerate(sorted(str(v) for v in unique_values))}`. -/
def mkMapping (col : List CellVal) : List (String × Nat) :=
  dictOfList ((sortedStrs col).enum.map (fun e => (e.2, e.1)))

/-- The fixed boolean table `{'false': 0, 'true': 1, 'False': 0, 'True': 1}`. -/
def bool_mapping : List (String × Nat) :=
  dictOfList [("false", 0), ("true", 1), ("False", 0), ("True", 1)]

/-- Boolean encoding of one cell:
`ddf[col].astype(str).str.lower().map(bool_mapping)` applied to one value. -/
def encodeBoolCell (v : CellVal) : Option Nat :=
  dictGet bool_mapping (pyLower (pyStr v))

/-- Total raw input size in GB: `sum(os.path.getsize(f) ...) / (1024**3)`. -/
def totalSizeGB (bytes : Nat) : ℚ := (bytes : ℚ) / (1024 ^ 3)

/-- Partition count of `DataProcessor.process_data`:
`max(1, int(total_size * 2))`, two partitions per GB, at least one. -/
def n_partitions (bytes : Nat) : Nat := max 1 (⌊totalSizeGB bytes * 2⌋).toNat

/-- Partition count of `data_processing.save_processed_data`:
`data.repartition(npartitions=20)`, a fixed constant. -/
def repartitionCountDP : Nat := 20

/-- A dask dataframe viewed column-wise: ordered named columns of cells
(the encoder only reads and assigns whole columns). -/
abbrev ColDF : Type := List (String × List CellVal)

/-- The column names of a column-wise dataframe. -/
def dfKeys (df : ColDF) : List String := df.map Prod.fst

/-- Read a column by name (`ddf[col]`), `none` when absent. -/
def getCol (df : ColDF) (c : String) : Option (List CellVal) :=
  (df.find? (fun p => p.1 = c)).map (fun p => p.2)

/-- Column assignment `ddf[c] = vals`: replace in place when the name exists,
otherwise append the new column at the end. -/
def dfAssign (df : ColDF) (c : String) (vals : List CellVal) : ColDF :=
  if c ∈ dfKeys df then
    df.map (fun p => if p.1 = c then (c, vals) else p)
  else df ++ [(c, vals)]

/-- Turn an optional integer code into a cell (missing key maps to null). -/
def cellOfCode : Option Nat → CellVal
  | some n => .intv n
  | none => .na

/-- The boolean-encoded column: lower-cased stringified values mapped through
the fixed four-entry table. -/
def encodeBoolCol (col : List CellVal) : List CellVal :=
  col.map (fun v => cellOfCode (dictGet bool_mapping (pyLower (pyStr v))))

/-- The categorically encoded column: stringified values mapped through the
sorted-distinct-value mapping built from this same column. -/
def encodeCatCol (col : List CellVal) : List CellVal :=
  col.map (fun v => cellOfCode (dictGet (mkMapping col) (pyStr v)))

/-- The per-column encoding state: the dataframe plus `self.encoding_maps`. -/
abbrev EncState : Type := ColDF × List (String × List (String × Nat))

/-- One encoder loop iteration: when the column exists, append (or overwrite)
its `_encoded` counterpart and record its map; otherwise skip silently. -/
def encStep (tr : List CellVal → List CellVal)
    (mp : List CellVal → List (String × Nat)) (st : EncState) (c : String) :
    EncState :=
  match getCol st.1 c with
  | some vals => (dfAssign st.1 (c ++ "_encoded") (tr vals),
      dictInsert st.2 c (mp vals))
  | none => st

/-- `self.bool_columns` of `DataProcessor`. -/
def bool_columns : List String := ["ZUSATZFAHRT_TF", "FAELLT_AUS_TF", "DURCHFAHRT_TF"]

/-- `self.categorical_columns` of `DataProcessor`. -/
def categorical_columns : List String :=
  ["FAHRT_BEZEICHNER", "BETREIBER_ABK", "LINIEN_ID", "LINIEN_TEXT", "BPUIC"]

/-- `DataProcessor.encode_categorical_columns`: boolean columns first, then
categorical columns, starting from an empty `encoding_maps`. -/
def encode_categorical_columns (df : ColDF) : EncState :=
  let st1 := bool_columns.foldl (encStep encodeBoolCol (fun _ => bool_mapping)) (df, [])
  categorical_columns.foldl (encStep encodeCatCol mkMapping) st1

/-- The persisted binary artifact `category_encodings.pkl`: `pickle.dump` of
`self.encoding_maps`. The artifact carries the serialized structure. -/
def pickleDump (m : List (String × List (String × Nat))) :
    List (String × List (String × Nat)) := m

/-- Reload of the binary artifact, `pickle.load`: deserialization is the
inverse of serialization per the pickle contract. -/
def pickleLoad (m : List (String × List (String × Nat))) :
    List (String × List (String × Nat)) := m

/-- A dask dataframe viewed row-wise: frame-level column names and rows of
cells aligned with them (the filter stages work row by row). -/
structure RowDF where
  cols : List String
  rows : List (List CellVal)
deriving DecidableEq, Repr

/-- The arrival status column name. -/
def anStatus : String := "AN_PROGNOSE_STATUS"

/-- The departure status column name. -/
def abStatus : String := "AB_PROGNOSE_STATUS"

/-- The cell of a row under a given column name (used only with the column
present, as a dask column access would raise otherwise). -/
def cellAt (cols : List String) (row : List CellVal) (c : String) : CellVal :=
  match cols.findIdx? (fun x => x = c) with
  | some i => row.getD i .na
  | none => .na

/-- Membership test of one row for one caller filter, `ddf[column].isin(values)`:
null never passes. -/
def rowPassesFilter (cols : List String) (c : String) (vals : List String)
    (row : List CellVal) : Bool :=
  match cellAt cols row c with
  | .str s => vals.contains s
  | _ => false

/-- The caller-filter loop of `DataProcessor.process_data`: each filter whose
column exists restricts the rows; a filter on an absent column is skipped. -/
def callerFiltersTrain (filters : List (String × List String)) (df : RowDF) :
    RowDF :=
  filters.foldl
    (fun d f =>
      if f.1 ∈ d.cols then
        { d with rows := d.rows.filter (rowPassesFilter d.cols f.1 f.2) }
      else d)
    df

/-- One row passes the built-in validity filter when both status cells equal
the sentinel `"REAL"`. -/
def rowIsReal (cols : List String) (row : List CellVal) : Bool :=
  cellAt cols row anStatus == .str "REAL" && cellAt cols row abStatus == .str "REAL"

/-- Remove the cells under the two status columns from one row. -/
def dropStatusCells (cols : List String) (row : List CellVal) : List CellVal :=
  ((cols.zip row).filter (fun p => !(p.1 = anStatus || p.1 = abStatus))).map Prod.snd

/-- The built-in validity filter of `DataProcessor.process_data`: when both
status columns exist, keep only `"REAL"`/`"REAL"` rows and drop the two
status columns; otherwise leave the frame unchanged. -/
def builtinRealFilterTrain (df : RowDF) : RowDF :=
  if anStatus ∈ df.cols ∧ abStatus ∈ df.cols then
    { cols := df.cols.filter (fun c => !(c = anStatus || c = abStatus)),
      rows := (df.rows.filter (rowIsReal df.cols)).map (dropStatusCells df.cols) }
  else df

/-- The filter section of `DataProcessor.process_data` (lines 519-536): caller
filters first, then the built-in validity filter. -/
def trainFilterStage (filters : List (String × List String)) (df : RowDF) :
    RowDF :=
  builtinRealFilterTrain (callerFiltersTrain filters df)

/-- The filter block of `DataProcessor.process_data` in the surrounding
`try`/`except` that turns an exception into the no-result outcome: no
operation of this block raises, so it always produces a frame. -/
def processFilterBlock (filters : List (String × List String)) (df : RowDF) :
    Option RowDF :=
  some (trainFilterStage filters df)

/-- One caller-filter iteration of `data_processing._apply_filters`: on a
live frame, an existing filter column restricts the rows, an absent one
returns `None` (fatal); a dead computation stays dead. -/
def dpStep (acc : Option RowDF) (f : String × List String) : Option RowDF :=
  acc.bind (fun d =>
    if f.1 ∈ d.cols then
      some { d with rows := d.rows.filter (rowPassesFilter d.cols f.1 f.2) }
    else none)

/-- `data_processing._apply_filters`: the built-in validity filter first
(an absent status column raises, making the result `None`; the status columns
are kept), then each caller filter in order, where an absent filter column
returns `None`. -/
def applyFiltersDP (filters : List (String × List String)) (df : RowDF) :
    Option RowDF :=
  if anStatus ∈ df.cols ∧ abStatus ∈ df.cols then
    filters.foldl dpStep
      (some { df with rows := df.rows.filter (rowIsReal df.cols) })
  else none

/-- The filter stage as the specification words it: the built-in validity
filter first, dropping the two status columns, and only afterwards the caller
filters in order. -/
def claimedFilterStage (filters : List (String × List String)) (df : RowDF) :
    RowDF :=
  callerFiltersTrain filters (builtinRealFilterTrain df)

/-- One row passes every caller filter whose column exists in the frame. -/
def rowPassesAll (filters : List (String × List String)) (cols : List String)
    (row : List CellVal) : Bool :=
  filters.all (fun f => !(f.1 ∈ cols : Bool) || rowPassesFilter cols f.1 f.2 row)

/-- A parsed timestamp (pandas `Timestamp` at second resolution). -/
structure PyDateTime where
  year : Nat
  month : Nat
  day : Nat
  hour : Nat
  minute : Nat
  second : Nat
deriving DecidableEq, Repr

/-- Days since 1970-01-01 of a proleptic-Gregorian civil date (the standard
days-from-civil computation; all intermediate quantities are nonnegative for
the years handled here). -/
def daysFromCivil (y : Int) (m d : Nat) : Int :=
  let yAdj : Int := if (m : Int) ≤ 2 then y - 1 else y
  let era : Int := (if 0 ≤ yAdj then yAdj else yAdj - 399) / 400
  let yoe : Int := yAdj - era * 400
  let mp : Int := ((m : Int) + 9) % 12
  let doy : Int := (153 * mp + 2) / 5 + (d : Int) - 1
  let doe : Int := yoe * 365 + yoe / 4 - yoe / 100 + doy
  era * 146097 + doe - 719468

/-- Seconds since the epoch of a timestamp. -/
def epochSeconds (t : PyDateTime) : Int :=
  daysFromCivil (t.year : Int) t.month t.day * 86400
    + (t.hour : Int) * 3600 + (t.minute : Int) * 60 + (t.second : Int)

/-- The day-before-month disambiguation of `to_datetime(..., dayfirst=True)`
on a numeric `a` separator `b` date: with `dayfirst` the first field is the
day whenever that reading is possible; an impossible reading falls back to
the other order. Returns `(day, month)`. -/
def resolveDayMonth (dayfirst : Bool) (a b : Nat) : Option (Nat × Nat) :=
  if dayfirst then
    if 1 ≤ b ∧ b ≤ 12 ∧ 1 ≤ a ∧ a ≤ 31 then some (a, b)
    else if 1 ≤ a ∧ a ≤ 12 ∧ 1 ≤ b ∧ b ≤ 31 then some (b, a)
    else none
  else
    if 1 ≤ a ∧ a ≤ 12 ∧ 1 ≤ b ∧ b ≤ 31 then some (b, a)
    else if 1 ≤ b ∧ b ≤ 12 ∧ 1 ≤ a ∧ a ≤ 31 then some (a, b)
    else none

/-- Split a character list on a separator character. -/
def splitOnChar (c : Char) (l : List Char) : List (List Char) :=
  l.foldr
    (fun ch acc =>
      if ch = c then [] :: acc
      else match acc with
        | h :: t => (ch :: h) :: t
        | [] => [[ch]])
    [[]]

/-- Read a nonempty all-digit character list as a number. -/
def digitsToNat : List Char → Option Nat
  | [] => none
  | l =>
    if l.all (fun c => c.isDigit) then
      some (l.foldl (fun n c => 10 * n + (c.toNat - 48)) 0)
    else none

/-- Parse an `HH:MM` or `HH:MM:SS` time-of-day field. -/
def parseClock (l : List Char) : Option (Nat × Nat × Nat) :=
  match (splitOnChar ':' l).mapM digitsToNat with
  | some [h, m] => if h ≤ 23 ∧ m ≤ 59 then some (h, m, 0) else none
  | some [h, m, s] => if h ≤ 23 ∧ m ≤ 59 ∧ s ≤ 59 then some (h, m, s) else none
  | _ => none

/-- Parse a calendar date: `YYYY-MM-DD` is unambiguous; a dotted
`a.b.YYYY` date resolves day and month via the `dayfirst` rule. Returns
`(year, month, day)`. -/
def parseCivilDate (dayfirst : Bool) (l : List Char) : Option (Nat × Nat × Nat) :=
  match (splitOnChar '-' l).mapM digitsToNat with
  | some [y, m, d] =>
    if 1 ≤ m ∧ m ≤ 12 ∧ 1 ≤ d ∧ d ≤ 31 then some (y, m, d) else none
  | _ =>
    match (splitOnChar '.' l).mapM digitsToNat with
    | some [a, b, y] =>
      (resolveDayMonth dayfirst a b).map (fun p => (y, p.2, p.1))
    | _ => none

/-- The format-tolerant element parse of `dd.to_datetime(..., format='mixed',
dayfirst=True)` restricted to the formats the data carries: an ISO
`date T time`, a `date time` with a blank, or a bare date (midnight). -/
def parseTimestamp (dayfirst : Bool) (s : String) : Option PyDateTime :=
  let combine := fun (dt : List Char) (tm : List Char) =>
    match parseCivilDate dayfirst dt, parseClock tm with
    | some (y, mo, d), some (h, mi, sec) =>
      some { year := y, month := mo, day := d, hour := h, minute := mi, second := sec }
    | _, _ => none
  match splitOnChar 'T' s.data with
  | [dt, tm] => combine dt tm
  | [whole] =>
    match splitOnChar ' ' whole with
    | [dt, tm] => combine dt tm
    | [dt] =>
      match parseCivilDate dayfirst dt with
      | some (y, mo, d) =>
        some { year := y, month := mo, day := d, hour := 0, minute := 0, second := 0 }
      | none => none
    | _ => none
  | _ => none

/-- The per-pair delta of `process_data`:
`(ddf[actual] - ddf[pred]).dt.total_seconds()` after both columns went through
`dd.to_datetime(..., format='mixed', dayfirst=True)`; a failed parse yields
null. The whole-second values of the data make the float an integer. -/
def calcTimeDiffSeconds (actual predicted : String) : Option Int := do
  let a ← parseTimestamp true actual
  let p ← parseTimestamp true predicted
  pure (epochSeconds a - epochSeconds p)

/-- The timestamp pairs `(actual, predicted, diff-name)` of `process_data`. -/
def timestamp_pairs : List (String × String × String) :=
  [("ANKUNFTSZEIT", "AN_PROGNOSE", "ARRIVAL_TIME_DIFF_SECONDS"),
   ("ABFAHRTSZEIT", "AB_PROGNOSE", "DEPARTURE_TIME_DIFF_SECONDS")]

/-- The four raw timestamp column names. -/
def tsRawNames : List String :=
  ["ANKUNFTSZEIT", "AN_PROGNOSE", "ABFAHRTSZEIT", "AB_PROGNOSE"]

/-- The six calendar-component suffixes, in the order `process_data` assigns
them (`_DAY_OF_WEEK` uses the Monday=0..Sunday=6 convention of pandas). -/
def derivedSuffixes : List String :=
  ["_DAY", "_MONTH", "_YEAR", "_DAY_OF_WEEK", "_HOUR", "_MINUTE"]

/-- Column-name effect of an assignment `ddf[n] = ...`: a new name is appended,
an existing one keeps its position. -/
def assignName (cols : List String) (n : String) : List String :=
  if n ∈ cols then cols else cols ++ [n]

/-- `needed_columns`: the header columns minus the excluded ones, in header
order (line 505 of `train_processor.py`). -/
def neededColumns (allCols excl : List String) : List String :=
  allCols.filter (fun c => !(c ∈ excl : Bool))

/-- Column-name effect of the validity-filter block: when both status columns
exist they are dropped; otherwise nothing changes. -/
def filterStageCols (cols : List String) : List String :=
  if anStatus ∈ cols ∧ abStatus ∈ cols then
    cols.filter (fun c => !(c = anStatus || c = abStatus))
  else cols

/-- Column-name effect of one timestamp pair: when both columns exist, the
diff column and the six components per timestamp column are assigned and the
two raw timestamp columns are dropped; otherwise nothing changes. -/
def tsStageStep (cols : List String) (p : String × String × String) :
    List String :=
  if p.1 ∈ cols ∧ p.2.1 ∈ cols then
    let c1 := assignName cols p.2.2
    let c2 := derivedSuffixes.foldl (fun cs suf => assignName cs (p.1 ++ suf)) c1
    let c3 := derivedSuffixes.foldl (fun cs suf => assignName cs (p.2.1 ++ suf)) c2
    c3.filter (fun c => !(c = p.1 || c = p.2.1))
  else cols

/-- Column-name effect of the whole timestamp section. -/
def tsStageCols (cols : List String) : List String :=
  timestamp_pairs.foldl tsStageStep cols

/-- Column-name effect of `encode_categorical_columns`: an `_encoded`
counterpart is assigned for every present boolean column, then for every
present categorical column. -/
def encodeStageCols (cols : List String) : List String :=
  let c1 := bool_columns.foldl
    (fun cs c => if c ∈ cs then assignName cs (c ++ "_encoded") else cs) cols
  categorical_columns.foldl
    (fun cs c => if c ∈ cs then assignName cs (c ++ "_encoded") else cs) c1

/-- Column-name effect of dropping the original boolean and categorical
columns after encoding (lines 580-588). -/
def dropOriginalsCols (cols : List String) : List String :=
  cols.filter (fun c => !(c ∈ bool_columns ++ categorical_columns : Bool))

/-- The end-to-end column-name pipeline of `process_data`: select the needed
columns, filter stage, timestamp section, encoding, drop of originals. -/
def pipelineCols (allCols excl : List String) : List String :=
  dropOriginalsCols (encodeStageCols (tsStageCols (filterStageCols
    (neededColumns allCols excl))))

/-- Every column name the pipeline can newly assign: the two diff columns,
the calendar components of the four timestamp columns, and the `_encoded`
counterparts of the configured boolean/categorical columns. -/
def reservedNames : List String :=
  (timestamp_pairs.map (fun p => p.2.2))
    ++ (tsRawNames.foldr (fun t acc => (derivedSuffixes.map (fun suf => t ++ suf)) ++ acc) [])
    ++ ((bool_columns ++ categorical_columns).map (fun c => c ++ "_encoded"))

/-- A realized pandas dtype as `data.dtypes` reports it. -/
inductive PdDtype
  | boolD
  | int8D
  | int32D
  | int64D
  | float32D
  | float64D
  | objectD
  | datetimeD
deriving DecidableEq, Repr

/-- `pd.api.types.is_bool_dtype` on a dtype. -/
def is_bool_dtype : PdDtype → Bool
  | .boolD => true
  | _ => false

/-- `pd.api.types.is_integer_dtype` on a dtype. -/
def is_integer_dtype : PdDtype → Bool
  | .int8D => true
  | .int32D => true
  | .int64D => true
  | _ => false

/-- `pd.api.types.is_float_dtype` on a dtype. -/
def is_float_dtype : PdDtype → Bool
  | .float32D => true
  | .float64D => true
  | _ => false

/-- An arrow physical type as `save_processed_data` chooses it. -/
inductive PaType
  | paBool
  | paInt64
  | paFloat64
  | paString
deriving DecidableEq, Repr

/-- The classification chain of `save_processed_data` (lines 177-185):
boolean, else integer, else float, else the string fallback. -/
def classifyDtype (d : PdDtype) : PaType :=
  if is_bool_dtype d then .paBool
  else if is_integer_dtype d then .paInt64
  else if is_float_dtype d then .paFloat64
  else .paString

/-- The explicit schema `pa.schema(schema_fields)` built from the realized
dtypes, in column order. -/
def buildSchema (colTypes : List (String × PdDtype)) : List (String × PaType) :=
  colTypes.map (fun p => (p.1, classifyDtype p.2))

/-- A written parquet dataset, carrying its stored schema. -/
structure ParquetFile where
  schema : List (String × PaType)
deriving DecidableEq, Repr

/-- Modelled from the spec: the columnar storage engine (external to this
repository) writes exactly the explicitly provided schema. -/
def writeParquetWithSchema (schema : List (String × PaType)) : ParquetFile :=
  { schema := schema }

/-- Modelled from the spec: reopening a written dataset recovers exactly the
physical types it was written under. -/
def reopenSchema (f : ParquetFile) : List (String × PaType) := f.schema

/-- The schema-relevant behavior of `data_processing.save_processed_data`:
classify every realized dtype and write under the resulting explicit schema. -/
def save_processed_data (colTypes : List (String × PdDtype)) : ParquetFile :=
  writeParquetWithSchema (buildSchema colTypes)

/-- An arrow physical type as the storage engine stores it when no explicit
schema is passed: the realized widths survive (int8/int32 stay narrow,
float32 stays single precision, datetimes become timestamps). -/
inductive PaInferredType
  | paBool
  | paInt8
  | paInt32
  | paInt64
  | paFloat32
  | paFloat64
  | paString
  | paTimestamp
deriving DecidableEq, Repr

/-- Modelled from the spec: with no explicit schema, the storage engine
(external to this repository) infers each column's physical type from its
realized dtype, preserving integer and float widths; object columns of
strings become string, datetimes become timestamps. -/
def engineInferType : PdDtype → PaInferredType
  | .boolD => .paBool
  | .int8D => .paInt8
  | .int32D => .paInt32
  | .int64D => .paInt64
  | .float32D => .paFloat32
  | .float64D => .paFloat64
  | .objectD => .paString
  | .datetimeD => .paTimestamp

/-- The write of `DataProcessor.process_data` (lines 605-612): `to_parquet`
with no `schema=` argument, so the stored (and reopened) physical types are
the engine-inferred ones, not any explicit classification. -/
def process_data_write (colTypes : List (String × PdDtype)) :
    List (String × PaInferredType) :=
  colTypes.map (fun p => (p.1, engineInferType p.2))

/-- The four-type classification embedded into the space of storable
physical types, to compare the two writers. -/
def paTypeAsInferred : PaType → PaInferredType
  | .paBool => .paBool
  | .paInt64 => .paInt64
  | .paFloat64 => .paFloat64
  | .paString => .paString

theorem charListLe_total : ∀ as bs : List Char,
    charListLe as bs = true ∨ charListLe bs as = true
  | [], _ => Or.inl rfl
  | _ :: _, [] => Or.inr rfl
  | a :: as, b :: bs => by
    by_cases hab : a = b
    · subst hab
      simpa [charListLe] using charListLe_total as bs
    · rcases lt_or_gt_of_ne hab with h | h
      · exact Or.inl (by simp [charListLe, hab, h])
      · exact Or.inr (by simp [charListLe, Ne.symm hab, h, not_lt_of_gt h])

theorem charListLe_trans : ∀ as bs cs : List Char,
    charListLe as bs = true → charListLe bs cs = true → charListLe as cs = true
  | [], _, _, _, _ => rfl
  | a :: as, [], _, h, _ => by simp [charListLe] at h
  | a :: as, b :: bs, [], _, h2 => by simp [charListLe] at h2
  | a :: as, b :: bs, c :: cs, h1, h2 => by
    by_cases hab : a = b <;> by_cases hbc : b = c
    · subst hab; subst hbc
      simp only [charListLe, if_pos rfl] at h1 h2 ⊢
      exact charListLe_trans as bs cs h1 h2
    · subst hab
      simpa [charListLe, hbc] using h2
    · subst hbc
      simpa [charListLe, hab] using h1
    · simp only [charListLe, if_neg hab] at h1
      simp only [charListLe, if_neg hbc] at h2
      have hac : a < c := lt_trans (of_decide_eq_true h1) (of_decide_eq_true h2)
      simp [charListLe, ne_of_lt hac, hac]

theorem charListLe_antisymm : ∀ as bs : List Char,
    charListLe as bs = true → charListLe bs as = true → as = bs
  | [], [], _, _ => rfl
  | [], _ :: _, _, h2 => by simp [charListLe] at h2
  | _ :: _, [], h1, _ => by simp [charListLe] at h1
  | a :: as, b :: bs, h1, h2 => by
    by_cases hab : a = b
    · subst hab
      simp only [charListLe, if_pos rfl] at h1 h2
      rw [charListLe_antisymm as bs h1 h2]
    · simp only [charListLe, if_neg hab, if_neg (Ne.symm hab)] at h1 h2
      exact absurd (of_decide_eq_true h2) (not_lt_of_gt (of_decide_eq_true h1))

theorem charListLt_irrefl : ∀ as : List Char, charListLt as as = false
  | [] => rfl
  | a :: as => by simp [charListLt, charListLt_irrefl as]

theorem charListLt_le_asymm : ∀ as bs : List Char,
    charListLt as bs = true → charListLe bs as = true → False
  | [], [], h1, _ => by simp [charListLt] at h1
  | [], _ :: _, _, h2 => by simp [charListLe] at h2
  | _ :: _, [], h1, _ => by simp [charListLt] at h1
  | a :: as, b :: bs, h1, h2 => by
    by_cases hab : a = b
    · subst hab
      simp only [charListLt, if_pos rfl] at h1
      simp only [charListLe, if_pos rfl] at h2
      exact charListLt_le_asymm as bs h1 h2
    · simp only [charListLt, if_neg hab] at h1
      simp only [charListLe, if_neg (Ne.symm hab)] at h2
      exact absurd (of_decide_eq_true h2) (not_lt_of_gt (of_decide_eq_true h1))

theorem sLe_total (s t : String) : sLe s t ∨ sLe t s :=
  charListLe_total s.data t.data

theorem sLe_trans {s t u : String} (h1 : sLe s t) (h2 : sLe t u) : sLe s u :=
  charListLe_trans s.data t.data u.data h1 h2

theorem sLe_antisymm {s t : String} (h1 : sLe s t) (h2 : sLe t s) : s = t := by
  cases s with
  | mk ds =>
    cases t with
    | mk dt =>
      have h := charListLe_antisymm ds dt h1 h2
      rw [h]

theorem asciiLowerChar_ne_upper (c u lu : Char) (hmem : (u, lu) ∈ lowerTable)
    (hall : ∀ q ∈ lowerTable, q.2 ≠ u) : asciiLowerChar c ≠ u := by
  unfold asciiLowerChar
  cases hf : lowerTable.find? (fun p => p.1 = c) with
  | none =>
    have hne := List.find?_eq_none.mp hf (u, lu) hmem
    simp only [Option.map_none', Option.getD_none]
    intro h
    exact hne (by simp [h])
  | some p =>
    have hp := List.mem_of_find?_eq_some hf
    simp only [Option.map_some', Option.getD_some]
    exact hall p hp

theorem pyLower_ne_False (s : String) : pyLower s ≠ "False" := by
  intro h
  have hd : s.data.map asciiLowerChar = "False".data := congrArg String.data h
  cases hdata : s.data with
  | nil => rw [hdata] at hd; exact absurd hd (by decide)
  | cons c t =>
    rw [hdata] at hd
    have hc : asciiLowerChar c = 'F' := (List.cons.injEq _ _ _ _ ▸ hd).1
    exact asciiLowerChar_ne_upper c 'F' 'f' (by decide) (by decide) hc

theorem pyLower_ne_True (s : String) : pyLower s ≠ "True" := by
  intro h
  have hd : s.data.map asciiLowerChar = "True".data := congrArg String.data h
  cases hdata : s.data with
  | nil => rw [hdata] at hd; exact absurd hd (by decide)
  | cons c t =>
    rw [hdata] at hd
    have hc : asciiLowerChar c = 'T' := (List.cons.injEq _ _ _ _ ▸ hd).1
    exact asciiLowerChar_ne_upper c 'T' 't' (by decide) (by decide) hc

/-- C2: every boolean-semantic value encodes to 0 exactly when its lower-cased
stringification is `"false"`, to 1 exactly when it is `"true"`, and to null for
every other value, so every encoded boolean value lies in `{0, 1, null}` with
no catch-all bucket. -/
theorem boolEncoding_zero_one_null : ∀ v : CellVal,
    (encodeBoolCell v = some 0 ↔ pyLower (pyStr v) = "false")
    ∧ (encodeBoolCell v = some 1 ↔ pyLower (pyStr v) = "true")
    ∧ (pyLower (pyStr v) ≠ "false" → pyLower (pyStr v) ≠ "true" →
        encodeBoolCell v = none)
    ∧ (encodeBoolCell v = none ∨ encodeBoolCell v = some 0 ∨
        encodeBoolCell v = some 1) := by
  intro v
  have hbm : bool_mapping = [("false", 0), ("true", 1), ("False", 0), ("True", 1)] := by
    decide
  have hget : encodeBoolCell v =
      dictGet [("false", 0), ("true", 1), ("False", 0), ("True", 1)]
        (pyLower (pyStr v)) := by
    rw [encodeBoolCell, hbm]
  have hF : pyLower (pyStr v) ≠ "False" := pyLower_ne_False _
  have hT : pyLower (pyStr v) ≠ "True" := pyLower_ne_True _
  by_cases h1 : pyLower (pyStr v) = "false"
  · rw [hget, h1]
    refine ⟨by simp [dictGet, List.find?], ?_, ?_, ?_⟩
    · simp [dictGet, List.find?]
    · intro hc _; exact absurd rfl hc
    · simp [dictGet, List.find?]
  · by_cases h2 : pyLower (pyStr v) = "true"
    · rw [hget, h2]
      refine ⟨by simp [dictGet, List.find?], by simp [dictGet, List.find?], ?_, ?_⟩
      · intro _ hc; exact absurd rfl hc
      · simp [dictGet, List.find?]
    · have hnone : encodeBoolCell v = none := by
        rw [hget]
        simp only [dictGet, List.find?]
        rw [decide_eq_false (fun h => h1 (Eq.symm h)),
          decide_eq_false (fun h => h2 (Eq.symm h)),
          decide_eq_false (fun h => hF (Eq.symm h)),
          decide_eq_false (fun h => hT (Eq.symm h))]
        rfl
      exact ⟨by simp [hnone, h1], by simp [hnone, h2],
        fun _ _ => hnone, Or.inl hnone⟩

/-- C5: the timestamp delta is the signed number of seconds actual minus
predicted: the spec's example pair gives +300, the swapped pair gives −300,
and an ambiguous two-digit/two-digit date is resolved day-before-month. -/
theorem diffSeconds_signed_dayfirst :
    calcTimeDiffSeconds "2024-01-01T10:05:00" "2024-01-01T10:00:00" = some 300
    ∧ calcTimeDiffSeconds "2024-01-01T10:00:00" "2024-01-01T10:05:00" = some (-300)
    ∧ (∀ a b : Nat, 1 ≤ a → a ≤ 12 → 1 ≤ b → b ≤ 12 →
        resolveDayMonth true a b = some (a, b)) := by
  refine ⟨by decide, by decide, ?_⟩
  intro a b h1 h2 h3 h4
  rw [resolveDayMonth, if_pos rfl, if_pos ⟨h3, h4, h1, le_trans h2 (by norm_num)⟩]

theorem diffSeconds_signed_dayfirst_witness :
    ((1 : Nat) ≤ 3 ∧ (3 : Nat) ≤ 12 ∧ (1 : Nat) ≤ 4 ∧ (4 : Nat) ≤ 12)
    ∧ resolveDayMonth true 3 4 = some (3, 4) :=
  ⟨by decide, diffSeconds_signed_dayfirst.2.2 3 4 (by decide) (by decide)
    (by decide) (by decide)⟩

/-- C7 counterexample: the `DataProcessor.process_data` writer passes no
explicit schema, so a categorical encoded column, realized as int32 (its
declared meta at line 435), is stored and reopened as int32, while the
classification chain of section 4.5 would classify it int64: the written
physical type does not equal the classification for that cited writer. -/
theorem writerClassification_counterexample :
    process_data_write [("LINIEN_TEXT_encoded", PdDtype.int32D)]
      = [("LINIEN_TEXT_encoded", PaInferredType.paInt32)]
    ∧ paTypeAsInferred (classifyDtype PdDtype.int32D) = PaInferredType.paInt64
    ∧ PaInferredType.paInt32 ≠ PaInferredType.paInt64 := by decide

/-- C7 amended: `save_processed_data` classifies every realized dtype into
exactly one of boolean, integer, float, or string (unrecognized dtypes fall
back to string) and writes under that explicit schema, so its reopened
physical types equal the classification column by column; the
`DataProcessor.process_data` writer passes no schema, so its stored types are
the engine-inferred ones, which agree with the classification exactly on the
dtypes that are already bool, int64, float64 or object, and differ on every
narrower realized dtype. -/
theorem schema_classification_amended (colTypes : List (String × PdDtype)) :
    reopenSchema (save_processed_data colTypes) = buildSchema colTypes
    ∧ (∀ p ∈ buildSchema colTypes, p.2 = PaType.paBool ∨ p.2 = PaType.paInt64
        ∨ p.2 = PaType.paFloat64 ∨ p.2 = PaType.paString)
    ∧ (∀ d : PdDtype, is_bool_dtype d = false → is_integer_dtype d = false →
        is_float_dtype d = false → classifyDtype d = PaType.paString)
    ∧ (reopenSchema (save_processed_data colTypes)).map Prod.fst
        = colTypes.map Prod.fst
    ∧ (∀ p ∈ process_data_write colTypes, ∃ d : PdDtype,
        (p.1, d) ∈ colTypes ∧ p.2 = engineInferType d)
    ∧ (∀ d : PdDtype, paTypeAsInferred (classifyDtype d) = engineInferType d
        ↔ (d = PdDtype.boolD ∨ d = PdDtype.int64D ∨ d = PdDtype.float64D
            ∨ d = PdDtype.objectD)) := by
  refine ⟨rfl, ?_, ?_, ?_, ?_, ?_⟩
  · intro p hp
    rw [buildSchema, List.mem_map] at hp
    obtain ⟨q, _, rfl⟩ := hp
    cases q.2 <;> simp [classifyDtype, is_bool_dtype, is_integer_dtype, is_float_dtype]
  · intro d hb hi hf
    rw [classifyDtype, hb, hi, hf]
    rfl
  · simp [reopenSchema, save_processed_data, writeParquetWithSchema, buildSchema]
  · intro p hp
    rw [process_data_write, List.mem_map] at hp
    obtain ⟨q, hq, rfl⟩ := hp
    exact ⟨q.2, hq, rfl⟩
  · intro d
    cases d <;> simp [paTypeAsInferred, classifyDtype, engineInferType,
      is_bool_dtype, is_integer_dtype, is_float_dtype]

theorem schema_classification_amended_witness :
    (is_bool_dtype PdDtype.datetimeD = false
      ∧ is_integer_dtype PdDtype.datetimeD = false
      ∧ is_float_dtype PdDtype.datetimeD = false)
    ∧ classifyDtype PdDtype.datetimeD = PaType.paString :=
  ⟨by decide, (schema_classification_amended []).2.2.1 PdDtype.datetimeD
    (by decide) (by decide) (by decide)⟩

theorem floor_sizeGB_mul_two (b : Nat) :
    ⌊totalSizeGB b * 2⌋ = ((2 * b) / 1024 ^ 3 : Nat) := by
  have hpos : (0 : ℚ) < 1024 ^ 3 := by norm_num
  rw [totalSizeGB, div_mul_eq_mul_div, mul_comm]
  rw [Int.floor_eq_iff]
  constructor
  · rw [le_div_iff₀ hpos]
    exact_mod_cast Nat.div_mul_le_self (2 * b) (1024 ^ 3)
  · rw [div_lt_iff₀ hpos]
    have hnat : 2 * b < (2 * b / 1024 ^ 3 + 1) * 1024 ^ 3 := by omega
    exact_mod_cast hnat

/-- C8 amended: the `DataProcessor` writer's partition count equals
`max(1, floor(2 × size-in-GB))`, is about 10 at 5 GB and never below 1, while
`data_processing.save_processed_data` always repartitions to the constant 20
regardless of input size. -/
theorem partitionCount_amended :
    (∀ b : Nat, n_partitions b = max 1 ((2 * b) / 1024 ^ 3))
    ∧ n_partitions (5 * 1024 ^ 3) = 10
    ∧ (∀ b : Nat, 1 ≤ n_partitions b)
    ∧ repartitionCountDP = 20 := by
  have hbridge : ∀ b : Nat, n_partitions b = max 1 ((2 * b) / 1024 ^ 3) := by
    intro b
    rw [n_partitions, floor_sizeGB_mul_two, Int.toNat_natCast]
  refine ⟨hbridge, ?_, ?_, rfl⟩
  · rw [hbridge]
    decide
  · intro b
    rw [hbridge]
    exact le_max_left 1 _

/-- C8 counterexample: with exactly 1 GB of raw input the claimed heuristic
gives 2 partitions, but the `save_processed_data` writer repartitions to 20. -/
theorem partitionCount_counterexample :
    repartitionCountDP ≠ n_partitions (1024 ^ 3) := by
  have h : n_partitions (1024 ^ 3) = max 1 ((2 * 1024 ^ 3) / 1024 ^ 3) := by
    rw [n_partitions, floor_sizeGB_mul_two, Int.toNat_natCast]
  rw [h]
  decide

theorem boolEncoding_zero_one_null_witness :
    (pyLower (pyStr (CellVal.str "REAL")) ≠ "false"
      ∧ pyLower (pyStr (CellVal.str "REAL")) ≠ "true")
    ∧ encodeBoolCell (CellVal.str "REAL") = none :=
  ⟨by decide, (boolEncoding_zero_one_null (CellVal.str "REAL")).2.2.1
    (by decide) (by decide)⟩

theorem pdUnique_foldl_mem {α : Type} [DecidableEq α] (l : List α) :
    ∀ (acc : List α) (a : α),
      (a ∈ l.foldl (fun acc x => if x ∈ acc then acc else acc ++ [x]) acc) ↔
        a ∈ acc ∨ a ∈ l := by
  induction l with
  | nil => intro acc a; simp
  | cons x t ih =>
    intro acc a
    simp only [List.foldl_cons, List.mem_cons]
    by_cases hx : x ∈ acc
    · rw [if_pos hx, ih]
      constructor
      · rintro (h | h)
        · exact Or.inl h
        · exact Or.inr (Or.inr h)
      · rintro (h | h | h)
        · exact Or.inl h
        · exact Or.inl (h ▸ hx)
        · exact Or.inr h
    · rw [if_neg hx, ih]
      simp only [List.mem_append, List.mem_singleton]
      constructor
      · rintro ((h | h) | h)
        · exact Or.inl h
        · exact Or.inr (Or.inl h)
        · exact Or.inr (Or.inr h)
      · rintro (h | h | h)
        · exact Or.inl (Or.inl h)
        · exact Or.inl (Or.inr h)
        · exact Or.inr h

theorem mem_pdUnique {α : Type} [DecidableEq α] {l : List α} {a : α} :
    a ∈ pdUnique l ↔ a ∈ l := by
  rw [pdUnique, pdUnique_foldl_mem]
  simp

theorem pdUnique_foldl_nodup {α : Type} [DecidableEq α] (l : List α) :
    ∀ acc : List α, acc.Nodup →
      (l.foldl (fun acc x => if x ∈ acc then acc else acc ++ [x]) acc).Nodup := by
  induction l with
  | nil => intro acc h; simpa using h
  | cons x t ih =>
    intro acc h
    simp only [List.foldl_cons]
    by_cases hx : x ∈ acc
    · rw [if_pos hx]; exact ih acc h
    · rw [if_neg hx]
      refine ih (acc ++ [x]) ?_
      rw [List.nodup_append]
      exact ⟨h, List.nodup_singleton x,
        fun a ha hb => hx ((List.mem_singleton.mp hb) ▸ ha)⟩

theorem nodup_pdUnique {α : Type} [DecidableEq α] (l : List α) :
    (pdUnique l).Nodup :=
  pdUnique_foldl_nodup l [] (List.nodup_nil)

theorem dictOfList_foldl_eq {α : Type} :
    ∀ (l acc : List (String × α)), ((acc ++ l).map Prod.fst).Nodup →
      l.foldl (fun m p => dictInsert m p.1 p.2) acc = acc ++ l := by
  intro l
  induction l with
  | nil => intro acc _; simp
  | cons p t ih =>
    intro acc h
    simp only [List.foldl_cons]
    have hp : p.1 ∉ acc.map Prod.fst := by
      rw [List.map_append] at h
      have hd := (List.nodup_append.mp h).2.2
      intro hmem
      exact hd hmem (by simp)
    have hins : dictInsert acc p.1 p.2 = acc ++ [p] := by
      have hcond : (acc.any fun q => q.1 = p.1) = false := by
        rw [List.any_eq_false]
        intro q hq hqe
        exact hp (List.mem_map.mpr ⟨q, hq, of_decide_eq_true hqe⟩)
      rw [dictInsert, hcond]
      simp
    rw [hins, ih (acc ++ [p]) (by simpa using h)]
    simp

theorem dictOfList_eq_self {α : Type} (l : List (String × α))
    (h : (l.map Prod.fst).Nodup) : dictOfList l = l := by
  rw [dictOfList, dictOfList_foldl_eq l [] (by simpa using h)]
  simp

theorem sortedStrs_perm (col : List CellVal) :
    (sortedStrs col).Perm (strsOf col) :=
  List.perm_insertionSort sLe (strsOf col)

theorem sorted_sortedStrs (col : List CellVal) :
    List.Sorted sLe (sortedStrs col) := by
  haveI : IsTotal String sLe := ⟨sLe_total⟩
  haveI : IsTrans String sLe := ⟨fun _ _ _ h1 h2 => sLe_trans h1 h2⟩
  exact List.sorted_insertionSort sLe (strsOf col)

theorem mkMapping_eq_enum (col : List CellVal) (h : (strsOf col).Nodup) :
    mkMapping col = (sortedStrs col).enum.map (fun e => (e.2, e.1)) := by
  apply dictOfList_eq_self
  have hkey : ((sortedStrs col).enum.map (fun e => (e.2, e.1))).map Prod.fst
      = sortedStrs col := by
    rw [List.map_map]
    have hc : (Prod.fst ∘ fun e : Nat × String => (e.2, e.1)) = Prod.snd := rfl
    rw [hc, List.enum_map_snd]
  rw [hkey]
  exact (sortedStrs_perm col).nodup_iff.mpr h

theorem mem_strsOf_iff (col : List CellVal) (s : String) :
    s ∈ strsOf col ↔ s ∈ col.map pyStr := by
  simp only [strsOf, List.mem_map]
  constructor
  · rintro ⟨v, hv, rfl⟩
    exact ⟨v, mem_pdUnique.mp hv, rfl⟩
  · rintro ⟨v, hv, rfl⟩
    exact ⟨v, mem_pdUnique.mpr hv, rfl⟩

/-- C1: for a categorical column the codes of the encoding map are exactly
`0..N-1` in order, where `N` is the number of distinct stringified values
present at encode time; each code belongs to exactly one distinct value, the
keys are exactly the values present, codes follow the lexicographic order of
the values, and the same distinct-value set yields the identical map. -/
theorem catEncoding_dense_sorted_deterministic (col col2 : List CellVal)
    (h1 : (strsOf col).Nodup) (h2 : (strsOf col2).Nodup)
    (hsub : ∀ s ∈ strsOf col, s ∈ strsOf col2)
    (hsub2 : ∀ s ∈ strsOf col2, s ∈ strsOf col) :
    (mkMapping col).map Prod.snd = List.range (col.map pyStr).dedup.length
    ∧ ((mkMapping col).map Prod.fst).Nodup
    ∧ (∀ s : String, s ∈ (mkMapping col).map Prod.fst ↔ s ∈ col.map pyStr)
    ∧ (∀ p ∈ mkMapping col, ∀ q ∈ mkMapping col, sLt p.1 q.1 → p.2 < q.2)
    ∧ mkMapping col2 = mkMapping col := by
  have hperm : (sortedStrs col).Perm (strsOf col) := sortedStrs_perm col
  have hsort : List.Sorted sLe (sortedStrs col) := sorted_sortedStrs col
  have hnods : (sortedStrs col).Nodup := hperm.nodup_iff.mpr h1
  have hmk := mkMapping_eq_enum col h1
  have hkeys : (mkMapping col).map Prod.fst = sortedStrs col := by
    rw [hmk, List.map_map]
    have hc : (Prod.fst ∘ fun e : Nat × String => (e.2, e.1)) = Prod.snd := rfl
    rw [hc, List.enum_map_snd]
  have hlen : (sortedStrs col).length = (col.map pyStr).dedup.length := by
    rw [hperm.length_eq]
    apply List.Perm.length_eq
    rw [List.perm_ext_iff_of_nodup h1 (List.nodup_dedup _)]
    intro a
    rw [List.mem_dedup, mem_strsOf_iff]
  refine ⟨?_, ?_, ?_, ?_, ?_⟩
  · rw [hmk, List.map_map]
    have hc : (Prod.snd ∘ fun e : Nat × String => (e.2, e.1)) = Prod.fst := rfl
    rw [hc, List.enum_map_fst, hlen]
  · rw [hkeys]; exact hnods
  · intro s
    rw [hkeys, ← mem_strsOf_iff]
    exact hperm.mem_iff
  · intro p hp q hq hlt
    rw [hmk, List.mem_map] at hp hq
    obtain ⟨e1, he1, rfl⟩ := hp
    obtain ⟨e2, he2, rfl⟩ := hq
    rw [List.mem_enum_iff_get?] at he1 he2
    obtain ⟨hb1, hg1⟩ := List.get?_eq_some.mp he1
    obtain ⟨hb2, hg2⟩ := List.get?_eq_some.mp he2
    by_contra hnot
    push_neg at hnot
    rcases Nat.lt_or_ge e2.1 e1.1 with hlt2 | hge
    · have hpair := List.pairwise_iff_get.mp hsort ⟨e2.1, hb2⟩ ⟨e1.1, hb1⟩ hlt2
      rw [hg1, hg2] at hpair
      exact charListLt_le_asymm _ _ hlt hpair
    · have heq : e2.1 = e1.1 := le_antisymm (by omega) hge
      have : e2.2 = e1.2 := by
        rw [← hg1, ← hg2]
        congr 1
        exact Fin.mk.injEq _ _ _ _ ▸ heq
      rw [this] at hlt
      rw [sLt, charListLt_irrefl] at hlt
      exact absurd hlt (by simp)
  · have hperm2 : (sortedStrs col2).Perm (sortedStrs col) := by
      refine (sortedStrs_perm col2).trans (List.Perm.trans ?_ (sortedStrs_perm col).symm)
      rw [List.perm_ext_iff_of_nodup h2 h1]
      exact fun a => ⟨hsub2 a, hsub a⟩
    haveI : IsAntisymm String sLe := ⟨fun _ _ h1 h2 => sLe_antisymm h1 h2⟩
    have hse : sortedStrs col2 = sortedStrs col :=
      List.eq_of_perm_of_sorted hperm2 (sorted_sortedStrs col2) hsort
    rw [mkMapping, mkMapping, hse]

theorem catEncoding_witness :
    ((strsOf [CellVal.str "b", CellVal.na, CellVal.str "a", CellVal.str "b"]).Nodup
      ∧ (strsOf [CellVal.na, CellVal.str "a", CellVal.str "b", CellVal.str "a"]).Nodup
      ∧ (∀ s ∈ strsOf [CellVal.str "b", CellVal.na, CellVal.str "a", CellVal.str "b"],
          s ∈ strsOf [CellVal.na, CellVal.str "a", CellVal.str "b", CellVal.str "a"])
      ∧ (∀ s ∈ strsOf [CellVal.na, CellVal.str "a", CellVal.str "b", CellVal.str "a"],
          s ∈ strsOf [CellVal.str "b", CellVal.na, CellVal.str "a", CellVal.str "b"]))
    ∧ (mkMapping [CellVal.str "b", CellVal.na, CellVal.str "a", CellVal.str "b"]).map Prod.snd
        = List.range (([CellVal.str "b", CellVal.na, CellVal.str "a",
            CellVal.str "b"].map pyStr).dedup.length)
    ∧ mkMapping [CellVal.na, CellVal.str "a", CellVal.str "b", CellVal.str "a"]
        = mkMapping [CellVal.str "b", CellVal.na, CellVal.str "a", CellVal.str "b"] :=
  ⟨by decide,
    (catEncoding_dense_sorted_deterministic
      [CellVal.str "b", CellVal.na, CellVal.str "a", CellVal.str "b"]
      [CellVal.na, CellVal.str "a", CellVal.str "b", CellVal.str "a"]
      (by decide) (by decide) (by decide) (by decide)).1,
    (catEncoding_dense_sorted_deterministic
      [CellVal.str "b", CellVal.na, CellVal.str "a", CellVal.str "b"]
      [CellVal.na, CellVal.str "a", CellVal.str "b", CellVal.str "a"]
      (by decide) (by decide) (by decide) (by decide)).2.2.2.2⟩

theorem append_encoded_cancel {a b : String}
    (h : a ++ "_encoded" = b ++ "_encoded") : a = b := by
  have hd : a.data ++ "_encoded".data = b.data ++ "_encoded".data := by
    rw [← String.data_append, ← String.data_append, h]
  have hab := List.append_cancel_right hd
  cases a with
  | mk da =>
    cases b with
    | mk db => exact congrArg String.mk hab

theorem find_replace_self {α : Type} (t : List (String × α)) (c : String)
    (v : α) (hc : c ∈ t.map Prod.fst) :
    (t.map (fun p => if p.1 = c then (c, v) else p)).find? (fun p => p.1 = c)
      = some (c, v) := by
  induction t with
  | nil => simp at hc
  | cons p t ih =>
    by_cases hp : p.1 = c
    · simp [List.find?, hp]
    · rw [List.map_cons, if_neg hp]
      rw [List.find?]
      rw [decide_eq_false hp]
      refine ih ?_
      rcases List.mem_map.mp hc with ⟨q, hq, hqe⟩
      rcases List.mem_cons.mp hq with rfl | hqt
      · exact absurd hqe hp
      · exact List.mem_map.mpr ⟨q, hqt, hqe⟩

theorem find_replace_ne {α : Type} (t : List (String × α)) (c c2 : String)
    (v : α) (h : c2 ≠ c) :
    (t.map (fun p => if p.1 = c then (c, v) else p)).find? (fun p => p.1 = c2)
      = t.find? (fun p => p.1 = c2) := by
  induction t with
  | nil => rfl
  | cons p t ih =>
    by_cases hp : p.1 = c
    · rw [List.map_cons, if_pos hp]
      rw [List.find?, List.find?]
      rw [decide_eq_false (fun hh : c = c2 => h hh.symm),
        decide_eq_false (fun hh : p.1 = c2 => h (hp ▸ hh).symm)]
      exact ih
    · rw [List.map_cons, if_neg hp]
      rw [List.find?, List.find?]
      cases hd : (decide (p.1 = c2)) with
      | true => rfl
      | false => exact ih

theorem mem_keys_iff_any {α : Type} (m : List (String × α)) (k : String) :
    (m.any fun p => p.1 = k) = true ↔ k ∈ m.map Prod.fst := by
  rw [List.any_eq_true]
  constructor
  · rintro ⟨p, hp, hpe⟩
    exact List.mem_map.mpr ⟨p, hp, of_decide_eq_true hpe⟩
  · intro h
    obtain ⟨p, hp, hpe⟩ := List.mem_map.mp h
    exact ⟨p, hp, decide_eq_true hpe⟩

theorem getCol_dfAssign_self (df : ColDF) (c : String) (vals : List CellVal) :
    getCol (dfAssign df c vals) c = some vals := by
  rw [dfAssign]
  by_cases hc : c ∈ dfKeys df
  · rw [if_pos hc, getCol, find_replace_self df c vals hc]
    rfl
  · rw [if_neg hc, getCol, List.find?_append]
    have hnone : df.find? (fun p => p.1 = c) = none := by
      rw [List.find?_eq_none]
      intro p hp hpe
      exact hc (List.mem_map.mpr ⟨p, hp, of_decide_eq_true hpe⟩)
    rw [hnone]
    simp [List.find?]

theorem getCol_dfAssign_ne (df : ColDF) (c : String) (vals : List CellVal)
    (c2 : String) (h : c2 ≠ c) :
    getCol (dfAssign df c vals) c2 = getCol df c2 := by
  rw [dfAssign]
  by_cases hc : c ∈ dfKeys df
  · rw [if_pos hc, getCol, find_replace_ne df c c2 vals h]
    rfl
  · rw [if_neg hc, getCol, List.find?_append]
    cases hf : df.find? (fun p => p.1 = c2) with
    | some p => rw [getCol, hf]; rfl
    | none =>
      rw [getCol, hf]
      simp [List.find?, decide_eq_false (fun hh : c = c2 => h hh.symm)]

theorem dictGet_insert_self {α : Type} (m : List (String × α)) (k : String)
    (v : α) : dictGet (dictInsert m k v) k = some v := by
  rw [dictInsert]
  by_cases hk : (m.any fun p => p.1 = k) = true
  · rw [if_pos hk, dictGet,
      find_replace_self m k v ((mem_keys_iff_any m k).mp hk)]
    rfl
  · rw [if_neg hk, dictGet, List.find?_append]
    have hnone : m.find? (fun p => p.1 = k) = none := by
      rw [List.find?_eq_none]
      intro p hp hpe
      exact hk ((mem_keys_iff_any m k).mpr
        (List.mem_map.mpr ⟨p, hp, of_decide_eq_true hpe⟩))
    rw [hnone]
    simp [List.find?]

theorem dictGet_insert_ne {α : Type} (m : List (String × α)) (k : String)
    (v : α) (k2 : String) (h : k2 ≠ k) :
    dictGet (dictInsert m k v) k2 = dictGet m k2 := by
  rw [dictInsert]
  by_cases hk : (m.any fun p => p.1 = k) = true
  · rw [if_pos hk, dictGet, find_replace_ne m k k2 v h]
    rfl
  · rw [if_neg hk, dictGet, List.find?_append]
    cases hf : m.find? (fun p => p.1 = k2) with
    | some p => rw [dictGet, hf]; rfl
    | none =>
      rw [dictGet, hf]
      simp [List.find?, decide_eq_false (fun hh : k = k2 => h hh.symm)]

theorem encStep_skip (tr : List CellVal → List CellVal)
    (mp : List CellVal → List (String × Nat)) (st : EncState) (c : String)
    (hg : getCol st.1 c = none) : encStep tr mp st c = st := by
  rw [encStep, hg]

theorem encStep_fire (tr : List CellVal → List CellVal)
    (mp : List CellVal → List (String × Nat)) (st : EncState) (c : String)
    (vals : List CellVal) (hg : getCol st.1 c = some vals) :
    encStep tr mp st c = (dfAssign st.1 (c ++ "_encoded") (tr vals),
      dictInsert st.2 c (mp vals)) := by
  rw [encStep, hg]

theorem encFold_getCol_preserved (tr : List CellVal → List CellVal)
    (mp : List CellVal → List (String × Nat)) :
    ∀ (L : List String) (st : EncState) (n : String),
      (∀ c ∈ L, n ≠ c ++ "_encoded") →
      getCol (L.foldl (encStep tr mp) st).1 n = getCol st.1 n := by
  intro L
  induction L with
  | nil => intro st n _; rfl
  | cons c t ih =>
    intro st n h
    rw [List.foldl_cons]
    rw [ih (encStep tr mp st c) n (fun c2 hc2 => h c2 (List.mem_cons_of_mem _ hc2))]
    cases hg : getCol st.1 c with
    | none => rw [encStep_skip tr mp st c hg]
    | some vals =>
      rw [encStep_fire tr mp st c vals hg]
      exact getCol_dfAssign_ne _ _ _ _ (h c (List.mem_cons_self c t))

theorem encFold_dictGet_preserved (tr : List CellVal → List CellVal)
    (mp : List CellVal → List (String × Nat)) :
    ∀ (L : List String) (st : EncState) (k : String),
      (∀ c ∈ L, k ≠ c) →
      dictGet (L.foldl (encStep tr mp) st).2 k = dictGet st.2 k := by
  intro L
  induction L with
  | nil => intro st k _; rfl
  | cons c t ih =>
    intro st k h
    rw [List.foldl_cons]
    rw [ih (encStep tr mp st c) k (fun c2 hc2 => h c2 (List.mem_cons_of_mem _ hc2))]
    cases hg : getCol st.1 c with
    | none => rw [encStep_skip tr mp st c hg]
    | some vals =>
      rw [encStep_fire tr mp st c vals hg]
      exact dictGet_insert_ne _ _ _ _ (h c (List.mem_cons_self c t))

theorem encFold_main (tr : List CellVal → List CellVal)
    (mp : List CellVal → List (String × Nat)) :
    ∀ (L : List String) (st : EncState) (col : String) (vals : List CellVal),
      col ∈ L → L.Nodup → (∀ c ∈ L, col ≠ c ++ "_encoded") →
      getCol st.1 col = some vals →
      getCol (L.foldl (encStep tr mp) st).1 (col ++ "_encoded") = some (tr vals)
      ∧ dictGet (L.foldl (encStep tr mp) st).2 col = some (mp vals) := by
  intro L
  induction L with
  | nil => intro st col vals h; simp at h
  | cons c t ih =>
    intro st col vals hmem hnd hne hcol
    rw [List.foldl_cons]
    rcases List.mem_cons.mp hmem with rfl | hmt
    · rw [encStep_fire tr mp st col vals hcol]
      constructor
      · rw [encFold_getCol_preserved tr mp t _ _ ?hfr]
        · exact getCol_dfAssign_self _ _ _
        case hfr =>
          intro c2 hc2 heq
          exact (List.nodup_cons.mp hnd).1
            ((append_encoded_cancel heq) ▸ hc2)
      · rw [encFold_dictGet_preserved tr mp t _ _ ?hfr2]
        · exact dictGet_insert_self _ _ _
        case hfr2 =>
          intro c2 hc2 heq
          exact (List.nodup_cons.mp hnd).1 (heq ▸ hc2)
    · have hcol2 : getCol (encStep tr mp st c).1 col = some vals := by
        cases hg : getCol st.1 c with
        | none => rw [encStep_skip tr mp st c hg]; exact hcol
        | some vals2 =>
          rw [encStep_fire tr mp st c vals2 hg]
          rw [getCol_dfAssign_ne _ _ _ _ (hne c (List.mem_cons_self c t))]
          exact hcol
      exact ih (encStep tr mp st c) col vals hmt (List.nodup_cons.mp hnd).2
        (fun c2 hc2 => hne c2 (List.mem_cons_of_mem _ hc2)) hcol2

theorem encFold_absent (tr : List CellVal → List CellVal)
    (mp : List CellVal → List (String × Nat)) :
    ∀ (L : List String) (st : EncState) (col : String),
      getCol st.1 col = none → (∀ c ∈ L, col ≠ c ++ "_encoded") →
      getCol (L.foldl (encStep tr mp) st).1 col = none
      ∧ dictGet (L.foldl (encStep tr mp) st).2 col = dictGet st.2 col
      ∧ getCol (L.foldl (encStep tr mp) st).1 (col ++ "_encoded")
          = getCol st.1 (col ++ "_encoded") := by
  intro L
  induction L with
  | nil => intro st col h0 _; exact ⟨h0, rfl, rfl⟩
  | cons c t ih =>
    intro st col h0 hne
    rw [List.foldl_cons]
    cases hg : getCol st.1 c with
    | none =>
      rw [encStep_skip tr mp st c hg]
      exact ih st col h0 (fun c2 hc2 => hne c2 (List.mem_cons_of_mem _ hc2))
    | some vals =>
      have hcc : col ≠ c := by
        intro hh
        rw [hh, hg] at h0
        exact absurd h0 (by simp)
      have henc : (col ++ "_encoded") ≠ (c ++ "_encoded") :=
        fun hh => hcc (append_encoded_cancel hh)
      rw [encStep_fire tr mp st c vals hg]
      have h0' : getCol (dfAssign st.1 (c ++ "_encoded") (tr vals)) col = none := by
        rw [getCol_dfAssign_ne _ _ _ _ (hne c (List.mem_cons_self c t))]
        exact h0
      obtain ⟨ha, hb, hc2⟩ := ih (dfAssign st.1 (c ++ "_encoded") (tr vals),
        dictInsert st.2 c (mp vals)) col h0'
        (fun c2 hc2 => hne c2 (List.mem_cons_of_mem _ hc2))
      refine ⟨ha, ?_, ?_⟩
      · rw [hb]
        exact dictGet_insert_ne _ _ _ _ hcc
      · rw [hc2]
        exact getCol_dfAssign_ne _ _ _ _ henc

theorem getCol_eq_none_iff (df : ColDF) (c : String) :
    getCol df c = none ↔ c ∉ dfKeys df := by
  rw [getCol, Option.map_eq_none', List.find?_eq_none, dfKeys]
  constructor
  · intro h hc
    obtain ⟨p, hp, hpe⟩ := List.mem_map.mp hc
    exact h p hp (decide_eq_true hpe)
  · intro h p hp hpe
    exact h (List.mem_map.mpr ⟨p, hp, of_decide_eq_true hpe⟩)

/-- C9: reloading the persisted binary encoding artifact yields, for every
encoded column, exactly the mapping that produced its encoded output column:
the categorical column's output is its read values mapped through the
reloaded map, the boolean column's output is its lower-cased stringified
values mapped through the reloaded fixed table. -/
theorem encodingArtifact_roundtrip (df : ColDF) (col : String)
    (vals : List CellVal) :
    (col ∈ categorical_columns → getCol df col = some vals →
      dictGet (pickleLoad (pickleDump (encode_categorical_columns df).2)) col
          = some (mkMapping vals)
      ∧ getCol (encode_categorical_columns df).1 (col ++ "_encoded")
          = some (vals.map (fun v => cellOfCode (dictGet (mkMapping vals) (pyStr v)))))
    ∧ (col ∈ bool_columns → getCol df col = some vals →
      dictGet (pickleLoad (pickleDump (encode_categorical_columns df).2)) col
          = some bool_mapping
      ∧ getCol (encode_categorical_columns df).1 (col ++ "_encoded")
          = some (vals.map (fun v => cellOfCode (dictGet bool_mapping (pyLower (pyStr v)))))) := by
  have hnodupcat : categorical_columns.Nodup := by decide
  constructor
  · intro hcat hget
    have hkeep : ∀ c ∈ bool_columns, col ≠ c ++ "_encoded" := by
      have hgen : ∀ x ∈ categorical_columns, ∀ c ∈ bool_columns,
          ¬ x = c ++ "_encoded" := by decide
      exact hgen col hcat
    have hget1 : getCol ((bool_columns.foldl
        (encStep encodeBoolCol (fun _ => bool_mapping)) (df, [])).1) col
        = some vals := by
      rw [encFold_getCol_preserved _ _ bool_columns (df, []) col hkeep]
      exact hget
    have hne : ∀ c ∈ categorical_columns, col ≠ c ++ "_encoded" := by
      have hgen : ∀ x ∈ categorical_columns, ∀ c ∈ categorical_columns,
          ¬ x = c ++ "_encoded" := by decide
      exact hgen col hcat
    have hmain := encFold_main encodeCatCol mkMapping categorical_columns
      (bool_columns.foldl (encStep encodeBoolCol (fun _ => bool_mapping)) (df, []))
      col vals hcat hnodupcat hne hget1
    exact ⟨hmain.2, hmain.1⟩
  · intro hbool hget
    have hnodupb : bool_columns.Nodup := by decide
    have hne : ∀ c ∈ bool_columns, col ≠ c ++ "_encoded" := by
      have hgen : ∀ x ∈ bool_columns, ∀ c ∈ bool_columns,
          ¬ x = c ++ "_encoded" := by decide
      exact hgen col hbool
    have hmain := encFold_main encodeBoolCol (fun _ => bool_mapping)
      bool_columns (df, []) col vals hbool hnodupb hne hget
    have hkeepenc : ∀ c ∈ categorical_columns, (col ++ "_encoded") ≠ c ++ "_encoded" := by
      have hgen : ∀ x ∈ bool_columns, ∀ c ∈ categorical_columns,
          ¬ x ++ "_encoded" = c ++ "_encoded" := by decide
      exact hgen col hbool
    have hkeepkey : ∀ c ∈ categorical_columns, col ≠ c := by
      have hgen : ∀ x ∈ bool_columns, ∀ c ∈ categorical_columns,
          ¬ x = c := by decide
      exact hgen col hbool
    constructor
    · simp only [encode_categorical_columns, pickleLoad, pickleDump]
      rw [encFold_dictGet_preserved encodeCatCol mkMapping categorical_columns _ col hkeepkey]
      exact hmain.2
    · simp only [encode_categorical_columns, pickleLoad, pickleDump]
      rw [encFold_getCol_preserved encodeCatCol mkMapping categorical_columns _ _ hkeepenc]
      exact hmain.1

theorem encodingArtifact_roundtrip_witness :
    ("LINIEN_TEXT" ∈ categorical_columns
      ∧ getCol [("LINIEN_TEXT", [CellVal.str "IC2", CellVal.str "IC2", CellVal.str "IC5"])]
          "LINIEN_TEXT" = some [CellVal.str "IC2", CellVal.str "IC2", CellVal.str "IC5"])
    ∧ dictGet (pickleLoad (pickleDump (encode_categorical_columns
        [("LINIEN_TEXT", [CellVal.str "IC2", CellVal.str "IC2", CellVal.str "IC5"])]).2))
        "LINIEN_TEXT"
        = some (mkMapping [CellVal.str "IC2", CellVal.str "IC2", CellVal.str "IC5"])
    ∧ getCol (encode_categorical_columns
        [("LINIEN_TEXT", [CellVal.str "IC2", CellVal.str "IC2", CellVal.str "IC5"])]).1
        "LINIEN_TEXT_encoded"
        = some ([CellVal.str "IC2", CellVal.str "IC2", CellVal.str "IC5"].map
            (fun v => cellOfCode (dictGet
              (mkMapping [CellVal.str "IC2", CellVal.str "IC2", CellVal.str "IC5"])
              (pyStr v)))) :=
  ⟨⟨by decide, by decide⟩,
    ((encodingArtifact_roundtrip
      [("LINIEN_TEXT", [CellVal.str "IC2", CellVal.str "IC2", CellVal.str "IC5"])]
      "LINIEN_TEXT"
      [CellVal.str "IC2", CellVal.str "IC2", CellVal.str "IC5"]).1
      (by decide) (by decide)).1,
    ((encodingArtifact_roundtrip
      [("LINIEN_TEXT", [CellVal.str "IC2", CellVal.str "IC2", CellVal.str "IC5"])]
      "LINIEN_TEXT"
      [CellVal.str "IC2", CellVal.str "IC2", CellVal.str "IC5"]).1
      (by decide) (by decide)).2⟩

/-- C10: a configured boolean or categorical column that is absent from the
dataset is skipped silently by the (total) encoder: no entry for it enters the
persisted encoding map, no encoded counterpart is appended, and the column
itself still does not exist afterwards. -/
theorem encoderSkipsAbsent (df : ColDF) (col : String)
    (h1 : col ∈ bool_columns ++ categorical_columns)
    (h2 : col ∉ dfKeys df) (h3 : (col ++ "_encoded") ∉ dfKeys df) :
    dictGet (encode_categorical_columns df).2 col = none
    ∧ getCol (encode_categorical_columns df).1 (col ++ "_encoded") = none
    ∧ getCol (encode_categorical_columns df).1 col = none := by
  have h0 : getCol df col = none := (getCol_eq_none_iff df col).mpr h2
  have h0e : getCol df (col ++ "_encoded") = none :=
    (getCol_eq_none_iff df _).mpr h3
  have hneb : ∀ c ∈ bool_columns, col ≠ c ++ "_encoded" := by
    have hgen : ∀ x ∈ bool_columns ++ categorical_columns, ∀ c ∈ bool_columns,
        ¬ x = c ++ "_encoded" := by decide
    exact hgen col h1
  have hnec : ∀ c ∈ categorical_columns, col ≠ c ++ "_encoded" := by
    have hgen : ∀ x ∈ bool_columns ++ categorical_columns,
        ∀ c ∈ categorical_columns, ¬ x = c ++ "_encoded" := by decide
    exact hgen col h1
  obtain ⟨ha1, hb1, hc1⟩ := encFold_absent encodeBoolCol (fun _ => bool_mapping)
    bool_columns (df, []) col h0 hneb
  obtain ⟨ha2, hb2, hc2⟩ := encFold_absent encodeCatCol mkMapping
    categorical_columns
    (bool_columns.foldl (encStep encodeBoolCol (fun _ => bool_mapping)) (df, []))
    col ha1 hnec
  refine ⟨?_, ?_, ?_⟩
  · rw [encode_categorical_columns, hb2, hb1]
    rfl
  · rw [encode_categorical_columns, hc2, hc1]
    exact h0e
  · rw [encode_categorical_columns]
    exact ha2

theorem encoderSkipsAbsent_witness :
    ("BPUIC" ∈ bool_columns ++ categorical_columns
      ∧ "BPUIC" ∉ dfKeys [("X", [CellVal.str "a"])]
      ∧ "BPUIC_encoded" ∉ dfKeys [("X", [CellVal.str "a"])])
    ∧ dictGet (encode_categorical_columns [("X", [CellVal.str "a"])]).2 "BPUIC" = none
    ∧ getCol (encode_categorical_columns [("X", [CellVal.str "a"])]).1
        "BPUIC_encoded" = none :=
  ⟨by decide,
    (encoderSkipsAbsent [("X", [CellVal.str "a"])] "BPUIC"
      (by decide) (by decide) (by decide)).1,
    (encoderSkipsAbsent [("X", [CellVal.str "a"])] "BPUIC"
      (by decide) (by decide) (by decide)).2.1⟩

theorem callerFilters_cols : ∀ (filters : List (String × List String))
    (df : RowDF), (callerFiltersTrain filters df).cols = df.cols := by
  intro filters
  induction filters with
  | nil => intro df; rfl
  | cons f t ih =>
    intro df
    rw [callerFiltersTrain, List.foldl_cons]
    by_cases hf : f.1 ∈ df.cols
    · rw [if_pos hf]
      exact ih { df with rows := df.rows.filter (rowPassesFilter df.cols f.1 f.2) }
    · rw [if_neg hf]
      exact ih df

theorem callerFiltersTrain_cons (f : String × List String)
    (t : List (String × List String)) (df : RowDF) :
    callerFiltersTrain (f :: t) df
      = callerFiltersTrain t
          (if f.1 ∈ df.cols then
            { df with rows := df.rows.filter (rowPassesFilter df.cols f.1 f.2) }
          else df) := rfl

theorem rowPassesAll_cons (f : String × List String)
    (t : List (String × List String)) (cols : List String)
    (r : List CellVal) :
    rowPassesAll (f :: t) cols r
      = ((!(decide (f.1 ∈ cols)) || rowPassesFilter cols f.1 f.2 r)
          && rowPassesAll t cols r) := rfl

theorem callerFilters_rows : ∀ (filters : List (String × List String))
    (df : RowDF), (callerFiltersTrain filters df).rows
      = df.rows.filter (rowPassesAll filters df.cols) := by
  intro filters
  induction filters with
  | nil =>
    intro df
    rw [show callerFiltersTrain [] df = df from rfl]
    rw [show (rowPassesAll [] df.cols) = fun _ => true from rfl]
    exact (List.filter_true df.rows).symm
  | cons f t ih =>
    intro df
    rw [callerFiltersTrain_cons]
    by_cases hf : f.1 ∈ df.cols
    · rw [if_pos hf]
      rw [ih { df with rows := df.rows.filter (rowPassesFilter df.cols f.1 f.2) }]
      show (df.rows.filter (rowPassesFilter df.cols f.1 f.2)).filter
          (rowPassesAll t df.cols)
        = df.rows.filter (rowPassesAll (f :: t) df.cols)
      rw [List.filter_filter]
      apply List.filter_congr
      intro r _
      rw [rowPassesAll_cons, decide_eq_true hf]
      simp [Bool.and_comm]
    · rw [if_neg hf]
      rw [ih df]
      apply List.filter_congr
      intro r _
      rw [rowPassesAll_cons, decide_eq_false hf]
      simp

theorem dpStep_some (d : RowDF) (f : String × List String) :
    dpStep (some d) f
      = if f.1 ∈ d.cols then
          some { d with rows := d.rows.filter (rowPassesFilter d.cols f.1 f.2) }
        else none := rfl

theorem dpStep_none (f : String × List String) : dpStep none f = none := rfl

theorem dpFold_all : ∀ (filters : List (String × List String)) (d : RowDF),
    (∀ f ∈ filters, f.1 ∈ d.cols) →
    filters.foldl dpStep (some d)
    = some { cols := d.cols, rows := d.rows.filter (rowPassesAll filters d.cols) } := by
  intro filters
  induction filters with
  | nil =>
    intro d _
    rw [List.foldl_nil]
    rw [show (rowPassesAll [] d.cols) = fun _ => true from rfl]
    rw [List.filter_true]
  | cons f t ih =>
    intro d hall
    have hf : f.1 ∈ d.cols := hall f (List.mem_cons_self f t)
    rw [List.foldl_cons, dpStep_some, if_pos hf]
    rw [ih { d with rows := d.rows.filter (rowPassesFilter d.cols f.1 f.2) }
      (fun g hg => hall g (List.mem_cons_of_mem _ hg))]
    apply congrArg some
    show RowDF.mk d.cols
        ((d.rows.filter (rowPassesFilter d.cols f.1 f.2)).filter
          (rowPassesAll t d.cols))
      = RowDF.mk d.cols (d.rows.filter (rowPassesAll (f :: t) d.cols))
    apply congrArg (RowDF.mk d.cols)
    rw [List.filter_filter]
    apply List.filter_congr
    intro r _
    rw [rowPassesAll_cons, decide_eq_true hf]
    simp [Bool.and_comm]

theorem dpFold_absorb : ∀ (filters : List (String × List String)),
    filters.foldl dpStep none = none := by
  intro filters
  induction filters with
  | nil => rfl
  | cons f t ih => rw [List.foldl_cons, dpStep_none]; exact ih

theorem dpFold_unknown : ∀ (filters : List (String × List String)) (d : RowDF)
    (f : String × List String), f ∈ filters → f.1 ∉ d.cols →
    filters.foldl dpStep (some d) = none := by
  intro filters
  induction filters with
  | nil => intro d f h; simp at h
  | cons g t ih =>
    intro d f hmem hnc
    rw [List.foldl_cons, dpStep_some]
    rcases List.mem_cons.mp hmem with rfl | hmt
    · rw [if_neg hnc]
      exact dpFold_absorb t
    · by_cases hg : g.1 ∈ d.cols
      · rw [if_pos hg]
        exact ih { d with rows := d.rows.filter (rowPassesFilter d.cols g.1 g.2) }
          f hmt hnc
      · rw [if_neg hg]
        exact dpFold_absorb t

/-- C3 counterexample: on a frame whose caller filter names a status column,
the DataProcessor stage (caller filters before the built-in filter) differs
from the claimed order (built-in filter and status-column drop first); and
`_apply_filters` keeps the status columns the claim says it drops. -/
theorem filterOrder_counterexample :
    trainFilterStage [(anStatus, ["FOO"])]
        { cols := [anStatus, abStatus],
          rows := [[CellVal.str "REAL", CellVal.str "REAL"]] }
      ≠ claimedFilterStage [(anStatus, ["FOO"])]
        { cols := [anStatus, abStatus],
          rows := [[CellVal.str "REAL", CellVal.str "REAL"]] }
    ∧ applyFiltersDP []
        { cols := [anStatus, abStatus],
          rows := [[CellVal.str "REAL", CellVal.str "REAL"]] }
      ≠ some (claimedFilterStage []
        { cols := [anStatus, abStatus],
          rows := [[CellVal.str "REAL", CellVal.str "REAL"]] }) := by decide

/-- C3 amended: the DataProcessor stage applies the caller membership filters
first (on the frame still carrying the status columns) and only then the
built-in validity filter, which keeps the `"REAL"`/`"REAL"` rows and drops the
two status columns; the `_apply_filters` helper applies the built-in filter
first but keeps the status columns, then the caller filters in order. -/
theorem filterStage_amended (filters : List (String × List String))
    (df : RowDF) (h1 : anStatus ∈ df.cols) (h2 : abStatus ∈ df.cols)
    (hall : ∀ f ∈ filters, f.1 ∈ df.cols) :
    (trainFilterStage filters df).cols
        = df.cols.filter (fun c => !(c = anStatus || c = abStatus))
    ∧ (trainFilterStage filters df).rows
        = (df.rows.filter (fun r => rowIsReal df.cols r
            && rowPassesAll filters df.cols r)).map (dropStatusCells df.cols)
    ∧ applyFiltersDP filters df
        = some { cols := df.cols,
                 rows := df.rows.filter (fun r => rowPassesAll filters df.cols r
                   && rowIsReal df.cols r) } := by
  have hc := callerFilters_cols filters df
  have hr := callerFilters_rows filters df
  have hguard : anStatus ∈ (callerFiltersTrain filters df).cols
      ∧ abStatus ∈ (callerFiltersTrain filters df).cols := by
    rw [hc]; exact ⟨h1, h2⟩
  refine ⟨?_, ?_, ?_⟩
  · rw [trainFilterStage, builtinRealFilterTrain, if_pos hguard]
    show (callerFiltersTrain filters df).cols.filter
        (fun c => !(c = anStatus || c = abStatus))
      = df.cols.filter (fun c => !(c = anStatus || c = abStatus))
    rw [hc]
  · rw [trainFilterStage, builtinRealFilterTrain, if_pos hguard]
    show ((callerFiltersTrain filters df).rows.filter
          (rowIsReal (callerFiltersTrain filters df).cols)).map
        (dropStatusCells (callerFiltersTrain filters df).cols)
      = (df.rows.filter (fun r => rowIsReal df.cols r
          && rowPassesAll filters df.cols r)).map (dropStatusCells df.cols)
    rw [hc, hr, List.filter_filter]
  · rw [applyFiltersDP, if_pos ⟨h1, h2⟩]
    rw [dpFold_all filters { df with rows := df.rows.filter (rowIsReal df.cols) }
      (fun g hg => hall g hg)]
    apply congrArg some
    show RowDF.mk df.cols
        ((df.rows.filter (rowIsReal df.cols)).filter (rowPassesAll filters df.cols))
      = RowDF.mk df.cols (df.rows.filter (fun r => rowPassesAll filters df.cols r
          && rowIsReal df.cols r))
    apply congrArg (RowDF.mk df.cols)
    rw [List.filter_filter]

theorem filterStage_amended_witness :
    (anStatus ∈ ([anStatus, abStatus, "LINIEN_TEXT"] : List String)
      ∧ abStatus ∈ ([anStatus, abStatus, "LINIEN_TEXT"] : List String)
      ∧ (∀ f ∈ ([("LINIEN_TEXT", ["IC2"])] : List (String × List String)),
          f.1 ∈ ([anStatus, abStatus, "LINIEN_TEXT"] : List String)))
    ∧ (trainFilterStage [("LINIEN_TEXT", ["IC2"])]
        { cols := [anStatus, abStatus, "LINIEN_TEXT"],
          rows := [[CellVal.str "REAL", CellVal.str "REAL", CellVal.str "IC2"],
            [CellVal.str "REAL", CellVal.str "FOO", CellVal.str "IC5"]] }).cols
        = ([anStatus, abStatus, "LINIEN_TEXT"] : List String).filter
            (fun c => !(c = anStatus || c = abStatus))
    ∧ applyFiltersDP [("LINIEN_TEXT", ["IC2"])]
        { cols := [anStatus, abStatus, "LINIEN_TEXT"],
          rows := [[CellVal.str "REAL", CellVal.str "REAL", CellVal.str "IC2"],
            [CellVal.str "REAL", CellVal.str "FOO", CellVal.str "IC5"]] }
        = some { cols := [anStatus, abStatus, "LINIEN_TEXT"],
                 rows := [[CellVal.str "REAL", CellVal.str "REAL", CellVal.str "IC2"],
                   [CellVal.str "REAL", CellVal.str "FOO", CellVal.str "IC5"]].filter
                     (fun r => rowPassesAll [("LINIEN_TEXT", ["IC2"])]
                         [anStatus, abStatus, "LINIEN_TEXT"] r
                       && rowIsReal [anStatus, abStatus, "LINIEN_TEXT"] r) } :=
  ⟨⟨by decide, by decide, by decide⟩,
    (filterStage_amended [("LINIEN_TEXT", ["IC2"])]
      { cols := [anStatus, abStatus, "LINIEN_TEXT"],
        rows := [[CellVal.str "REAL", CellVal.str "REAL", CellVal.str "IC2"],
          [CellVal.str "REAL", CellVal.str "FOO", CellVal.str "IC5"]] }
      (by decide) (by decide) (by decide)).1,
    (filterStage_amended [("LINIEN_TEXT", ["IC2"])]
      { cols := [anStatus, abStatus, "LINIEN_TEXT"],
        rows := [[CellVal.str "REAL", CellVal.str "REAL", CellVal.str "IC2"],
          [CellVal.str "REAL", CellVal.str "FOO", CellVal.str "IC5"]] }
      (by decide) (by decide) (by decide)).2.2⟩

/-- C4 counterexample: a caller filter naming an absent column does not abort
the DataProcessor run; the filter block completes with the frame unchanged (the
unknown filter is silently skipped), instead of producing the no-result
outcome the claim requires. -/
theorem unknownFilter_counterexample :
    processFilterBlock [("MISSING_COL", ["v"])]
        { cols := ["A"], rows := [[CellVal.str "x"]] }
      = some { cols := ["A"], rows := [[CellVal.str "x"]] }
    ∧ processFilterBlock [("MISSING_COL", ["v"])]
        { cols := ["A"], rows := [[CellVal.str "x"]] } ≠ none := by decide

/-- C4 amended: in `data_processing._apply_filters` a caller filter naming an
absent column makes the whole stage return the no-result outcome, while in
`DataProcessor.process_data` the caller-filter loop silently skips every
filter whose column does not exist (the result equals applying only the
filters whose columns exist). -/
theorem unknownFilter_amended :
    (∀ (filters : List (String × List String)) (df : RowDF)
      (f : String × List String), f ∈ filters → f.1 ∉ df.cols →
      applyFiltersDP filters df = none)
    ∧ (∀ (filters : List (String × List String)) (df : RowDF),
      callerFiltersTrain filters df
        = callerFiltersTrain (filters.filter (fun f => decide (f.1 ∈ df.cols))) df) := by
  constructor
  · intro filters df f hmem hnc
    rw [applyFiltersDP]
    by_cases hst : anStatus ∈ df.cols ∧ abStatus ∈ df.cols
    · rw [if_pos hst]
      exact dpFold_unknown filters _ f hmem hnc
    · rw [if_neg hst]
  · intro filters
    induction filters with
    | nil => intro df; rfl
    | cons f t ih =>
      intro df
      rw [callerFiltersTrain_cons, List.filter_cons]
      by_cases hf : f.1 ∈ df.cols
      · rw [if_pos hf, if_pos (decide_eq_true hf)]
        rw [callerFiltersTrain_cons, if_pos hf]
        exact ih { df with rows := df.rows.filter (rowPassesFilter df.cols f.1 f.2) }
      · rw [if_neg hf, if_neg (fun h => hf (of_decide_eq_true h))]
        exact ih df

theorem unknownFilter_amended_witness :
    (("X", ["v"]) ∈ ([(("X" : String), ["v"])] : List (String × List String))
      ∧ "X" ∉ (["A"] : List String))
    ∧ applyFiltersDP [("X", ["v"])] { cols := ["A"], rows := [] } = none
    ∧ callerFiltersTrain [("X", ["v"])] { cols := ["A"], rows := [[CellVal.str "q"]] }
        = callerFiltersTrain
            (([(("X" : String), ["v"])] : List (String × List String)).filter
              (fun f => decide (f.1 ∈ (({ cols := ["A"],
                                          rows := [[CellVal.str "q"]] } : RowDF)).cols)))
            { cols := ["A"], rows := [[CellVal.str "q"]] } :=
  ⟨⟨by decide, by decide⟩,
    unknownFilter_amended.1 [("X", ["v"])] { cols := ["A"], rows := [] }
      ("X", ["v"]) (by decide) (by decide),
    unknownFilter_amended.2 [("X", ["v"])] { cols := ["A"], rows := [[CellVal.str "q"]] }⟩

theorem mem_assignName (cols : List String) (n a : String) :
    a ∈ assignName cols n ↔ a ∈ cols ∨ a = n := by
  rw [assignName]
  by_cases h : n ∈ cols
  · rw [if_pos h]
    exact ⟨Or.inl, fun hc => hc.elim id (fun he => he ▸ h)⟩
  · rw [if_neg h]
    simp

theorem mem_foldl_assignName : ∀ (names cols : List String) (a : String),
    a ∈ names.foldl assignName cols ↔ a ∈ cols ∨ a ∈ names := by
  intro names
  induction names with
  | nil => intro cols a; simp
  | cons n t ih =>
    intro cols a
    rw [List.foldl_cons, ih, mem_assignName, List.mem_cons]
    constructor
    · rintro ((h | h) | h)
      · exact Or.inl h
      · exact Or.inr (Or.inl h)
      · exact Or.inr (Or.inr h)
    · rintro (h | h | h)
      · exact Or.inl (Or.inl h)
      · exact Or.inl (Or.inr h)
      · exact Or.inr h

theorem tsStageStep_subset (cols : List String) (p : String × String × String)
    (a : String) (ha : a ∈ tsStageStep cols p) :
    a ∈ cols ∨ (a = p.2.2 ∨ a ∈ derivedSuffixes.map (fun s => p.1 ++ s)
      ∨ a ∈ derivedSuffixes.map (fun s => p.2.1 ++ s)) := by
  rw [tsStageStep] at ha
  by_cases hg : p.1 ∈ cols ∧ p.2.1 ∈ cols
  · rw [if_pos hg] at ha
    have ha2 := List.mem_filter.mp ha
    rw [← List.foldl_map (fun s => p.2.1 ++ s) assignName] at ha2
    have ha3 := (mem_foldl_assignName _ _ _).mp ha2.1
    rcases ha3 with ha3 | ha3
    · rw [← List.foldl_map (fun s => p.1 ++ s) assignName] at ha3
      have ha4 := (mem_foldl_assignName _ _ _).mp ha3
      rcases ha4 with ha4 | ha4
      · rcases (mem_assignName _ _ _).mp ha4 with h | h
        · exact Or.inl h
        · exact Or.inr (Or.inl h)
      · exact Or.inr (Or.inr (Or.inl ha4))
    · exact Or.inr (Or.inr (Or.inr ha3))
  · rw [if_neg hg] at ha
    exact Or.inl ha

theorem tsStageStep_keeps (cols : List String) (p : String × String × String)
    (a : String) (ha : a ∈ cols) (hne : ¬(a = p.1 ∨ a = p.2.1)) :
    a ∈ tsStageStep cols p := by
  rw [tsStageStep]
  by_cases hg : p.1 ∈ cols ∧ p.2.1 ∈ cols
  · rw [if_pos hg]
    refine List.mem_filter.mpr ⟨?_, ?_⟩
    · rw [← List.foldl_map (fun s => p.2.1 ++ s) assignName]
      refine (mem_foldl_assignName _ _ _).mpr (Or.inl ?_)
      rw [← List.foldl_map (fun s => p.1 ++ s) assignName]
      refine (mem_foldl_assignName _ _ _).mpr (Or.inl ?_)
      exact (mem_assignName _ _ _).mpr (Or.inl ha)
    · have h1 : a ≠ p.1 := fun h => hne (Or.inl h)
      have h2 : a ≠ p.2.1 := fun h => hne (Or.inr h)
      simp [h1, h2]
  · rw [if_neg hg]
    exact ha

theorem tsStageStep_drops (cols : List String) (p : String × String × String)
    (h1 : p.1 ∈ cols) (h2 : p.2.1 ∈ cols) :
    p.1 ∉ tsStageStep cols p ∧ p.2.1 ∉ tsStageStep cols p := by
  rw [tsStageStep, if_pos ⟨h1, h2⟩]
  constructor
  · intro hmem
    have := (List.mem_filter.mp hmem).2
    simp at this
  · intro hmem
    have := (List.mem_filter.mp hmem).2
    simp at this

theorem mem_filterStageCols (cols : List String) (a : String)
    (h1 : a ≠ anStatus) (h2 : a ≠ abStatus) :
    a ∈ filterStageCols cols ↔ a ∈ cols := by
  rw [filterStageCols]
  by_cases hg : anStatus ∈ cols ∧ abStatus ∈ cols
  · rw [if_pos hg]
    rw [List.mem_filter]
    constructor
    · exact fun h => h.1
    · intro h
      refine ⟨h, ?_⟩
      simp [h1, h2]
  · rw [if_neg hg]

theorem mem_encodeFold : ∀ (L cols : List String) (a : String),
    a ∈ L.foldl (fun cs c => if c ∈ cs then assignName cs (c ++ "_encoded") else cs) cols →
    a ∈ cols ∨ ∃ c ∈ L, a = c ++ "_encoded" := by
  intro L
  induction L with
  | nil => intro cols a h; exact Or.inl h
  | cons c t ih =>
    intro cols a h
    rw [List.foldl_cons] at h
    by_cases hc : c ∈ cols
    · rw [if_pos hc] at h
      rcases ih _ _ h with h2 | h2
      · rcases (mem_assignName _ _ _).mp h2 with h3 | h3
        · exact Or.inl h3
        · exact Or.inr ⟨c, List.mem_cons_self c t, h3⟩
      · obtain ⟨d, hd, he⟩ := h2
        exact Or.inr ⟨d, List.mem_cons_of_mem _ hd, he⟩
    · rw [if_neg hc] at h
      rcases ih _ _ h with h2 | h2
      · exact Or.inl h2
      · obtain ⟨d, hd, he⟩ := h2
        exact Or.inr ⟨d, List.mem_cons_of_mem _ hd, he⟩

theorem mem_encodeStageCols (cols : List String) (a : String)
    (h : a ∈ encodeStageCols cols)
    (hne : ∀ c ∈ bool_columns ++ categorical_columns, a ≠ c ++ "_encoded") :
    a ∈ cols := by
  rw [encodeStageCols] at h
  rcases mem_encodeFold categorical_columns _ a h with h2 | h2
  · rcases mem_encodeFold bool_columns _ a h2 with h3 | h3
    · exact h3
    · obtain ⟨c, hc, he⟩ := h3
      exact absurd he (hne c (List.mem_append.mpr (Or.inl hc)))
  · obtain ⟨c, hc, he⟩ := h2
    exact absurd he (hne c (List.mem_append.mpr (Or.inr hc)))

theorem tsRaw_not_mem_tsStage (cols : List String) (t : String)
    (ht : t ∈ tsRawNames)
    (hpair : ∀ p ∈ timestamp_pairs, (p.1 ∈ cols ↔ p.2.1 ∈ cols)) :
    t ∉ tsStageCols cols := by
  have hnew : ∀ u ∈ tsRawNames, ∀ p ∈ timestamp_pairs,
      ¬(u = p.2.2 ∨ u ∈ derivedSuffixes.map (fun s => p.1 ++ s)
        ∨ u ∈ derivedSuffixes.map (fun s => p.2.1 ++ s)) := by decide
  have hp1 : ("ANKUNFTSZEIT", "AN_PROGNOSE", "ARRIVAL_TIME_DIFF_SECONDS")
      ∈ timestamp_pairs := by decide
  have hp2 : ("ABFAHRTSZEIT", "AB_PROGNOSE", "DEPARTURE_TIME_DIFF_SECONDS")
      ∈ timestamp_pairs := by decide
  have hrfl : tsStageCols cols
      = tsStageStep (tsStageStep cols
          ("ANKUNFTSZEIT", "AN_PROGNOSE", "ARRIVAL_TIME_DIFF_SECONDS"))
          ("ABFAHRTSZEIT", "AB_PROGNOSE", "DEPARTURE_TIME_DIFF_SECONDS") := rfl
  rw [hrfl]
  have hout2 : ∀ u ∈ tsRawNames,
      u ∉ tsStageStep cols ("ANKUNFTSZEIT", "AN_PROGNOSE", "ARRIVAL_TIME_DIFF_SECONDS") →
      u ∉ tsStageStep (tsStageStep cols
          ("ANKUNFTSZEIT", "AN_PROGNOSE", "ARRIVAL_TIME_DIFF_SECONDS"))
          ("ABFAHRTSZEIT", "AB_PROGNOSE", "DEPARTURE_TIME_DIFF_SECONDS") := by
    intro u hu h1 hmem
    rcases tsStageStep_subset _ _ _ hmem with h | h
    · exact h1 h
    · exact hnew u hu _ hp2 h
  have hout1 : ∀ u ∈ tsRawNames, u ∉ cols →
      u ∉ tsStageStep cols ("ANKUNFTSZEIT", "AN_PROGNOSE", "ARRIVAL_TIME_DIFF_SECONDS") := by
    intro u hu h0 hmem
    rcases tsStageStep_subset _ _ _ hmem with h | h
    · exact h0 h
    · exact hnew u hu _ hp1 h
  simp only [tsRawNames, List.mem_cons, List.not_mem_nil, or_false] at ht
  rcases ht with rfl | rfl | rfl | rfl
  · by_cases hb : "ANKUNFTSZEIT" ∈ cols
    · have hm : "AN_PROGNOSE" ∈ cols := (hpair _ hp1).mp hb
      exact hout2 _ (by decide) (tsStageStep_drops cols _ hb hm).1
    · exact hout2 _ (by decide) (hout1 _ (by decide) hb)
  · by_cases hb : "AN_PROGNOSE" ∈ cols
    · have hm : "ANKUNFTSZEIT" ∈ cols := (hpair _ hp1).mpr hb
      exact hout2 _ (by decide) (tsStageStep_drops cols _ hm hb).2
    · exact hout2 _ (by decide) (hout1 _ (by decide) hb)
  · by_cases hb : "ABFAHRTSZEIT" ∈ cols
    · have hm : "AB_PROGNOSE" ∈ cols := (hpair _ hp2).mp hb
      have hb1 : "ABFAHRTSZEIT" ∈ tsStageStep cols
          ("ANKUNFTSZEIT", "AN_PROGNOSE", "ARRIVAL_TIME_DIFF_SECONDS") :=
        tsStageStep_keeps cols _ _ hb (by decide)
      have hm1 : "AB_PROGNOSE" ∈ tsStageStep cols
          ("ANKUNFTSZEIT", "AN_PROGNOSE", "ARRIVAL_TIME_DIFF_SECONDS") :=
        tsStageStep_keeps cols _ _ hm (by decide)
      exact (tsStageStep_drops _ _ hb1 hm1).1
    · exact hout2 _ (by decide) (hout1 _ (by decide) hb)
  · by_cases hb : "AB_PROGNOSE" ∈ cols
    · have hm : "ABFAHRTSZEIT" ∈ cols := (hpair _ hp2).mpr hb
      have hb1 : "AB_PROGNOSE" ∈ tsStageStep cols
          ("ANKUNFTSZEIT", "AN_PROGNOSE", "ARRIVAL_TIME_DIFF_SECONDS") :=
        tsStageStep_keeps cols _ _ hb (by decide)
      have hm1 : "ABFAHRTSZEIT" ∈ tsStageStep cols
          ("ANKUNFTSZEIT", "AN_PROGNOSE", "ARRIVAL_TIME_DIFF_SECONDS") :=
        tsStageStep_keeps cols _ _ hm (by decide)
      exact (tsStageStep_drops _ _ hm1 hb1).2
    · exact hout2 _ (by decide) (hout1 _ (by decide) hb)

theorem filter_swap {α : Type} (p q : α → Bool) (l : List α) :
    (l.filter q).filter p = (l.filter p).filter q := by
  rw [List.filter_filter, List.filter_filter]
  exact List.filter_congr (fun a _ => Bool.and_comm _ _)

theorem filterMem_assignName (A cols : List String) (n : String) (hn : n ∉ A) :
    (assignName cols n).filter (fun c => decide (c ∈ A))
      = cols.filter (fun c => decide (c ∈ A)) := by
  rw [assignName]
  by_cases h : n ∈ cols
  · rw [if_pos h]
  · rw [if_neg h, List.filter_append]
    rw [show ([n].filter (fun c => decide (c ∈ A))) = [] from by simp [hn]]
    rw [List.append_nil]

theorem filterMem_foldl_assignName : ∀ (names A cols : List String),
    (∀ n ∈ names, n ∉ A) →
    (names.foldl assignName cols).filter (fun c => decide (c ∈ A))
      = cols.filter (fun c => decide (c ∈ A)) := by
  intro names
  induction names with
  | nil => intro A cols _; rfl
  | cons n t ih =>
    intro A cols h
    rw [List.foldl_cons]
    rw [ih A (assignName cols n) (fun m hm => h m (List.mem_cons_of_mem _ hm))]
    exact filterMem_assignName A cols n (h n (List.mem_cons_self n t))

theorem filterMem_tsStageStep (A cols : List String)
    (p : String × String × String)
    (h1 : p.2.2 ∉ A)
    (h2 : ∀ s ∈ derivedSuffixes, (p.1 ++ s) ∉ A)
    (h3 : ∀ s ∈ derivedSuffixes, (p.2.1 ++ s) ∉ A) :
    ((tsStageStep cols p).filter (fun c => decide (c ∈ A))).Sublist
      (cols.filter (fun c => decide (c ∈ A))) := by
  rw [tsStageStep]
  by_cases hg : p.1 ∈ cols ∧ p.2.1 ∈ cols
  · rw [if_pos hg]
    have hc1 : (assignName cols p.2.2).filter (fun c => decide (c ∈ A))
        = cols.filter (fun c => decide (c ∈ A)) :=
      filterMem_assignName A cols p.2.2 h1
    have hc2 : ((derivedSuffixes.foldl (fun cs suf => assignName cs (p.1 ++ suf))
          (assignName cols p.2.2)).filter (fun c => decide (c ∈ A)))
        = (assignName cols p.2.2).filter (fun c => decide (c ∈ A)) := by
      rw [← List.foldl_map (fun s => p.1 ++ s) assignName]
      refine filterMem_foldl_assignName _ A _ ?_
      intro n hn
      obtain ⟨s, hs, rfl⟩ := List.mem_map.mp hn
      exact h2 s hs
    have hc3 : ((derivedSuffixes.foldl (fun cs suf => assignName cs (p.2.1 ++ suf))
          (derivedSuffixes.foldl (fun cs suf => assignName cs (p.1 ++ suf))
            (assignName cols p.2.2))).filter (fun c => decide (c ∈ A)))
        = ((derivedSuffixes.foldl (fun cs suf => assignName cs (p.1 ++ suf))
            (assignName cols p.2.2)).filter (fun c => decide (c ∈ A))) := by
      rw [← List.foldl_map (fun s => p.2.1 ++ s) assignName]
      refine filterMem_foldl_assignName _ A _ ?_
      intro n hn
      obtain ⟨s, hs, rfl⟩ := List.mem_map.mp hn
      exact h3 s hs
    rw [filter_swap, hc3, hc2, hc1]
    exact List.filter_sublist _
  · rw [if_neg hg]

theorem filterMem_encodeFold : ∀ (L A cols : List String),
    (∀ c ∈ L, (c ++ "_encoded") ∉ A) →
    ((L.foldl (fun cs c => if c ∈ cs then assignName cs (c ++ "_encoded") else cs)
        cols).filter (fun c => decide (c ∈ A)))
      = cols.filter (fun c => decide (c ∈ A)) := by
  intro L
  induction L with
  | nil => intro A cols _; rfl
  | cons c t ih =>
    intro A cols h
    rw [List.foldl_cons]
    by_cases hc : c ∈ cols
    · rw [if_pos hc]
      rw [ih A _ (fun d hd => h d (List.mem_cons_of_mem _ hd))]
      exact filterMem_assignName A cols _ (h c (List.mem_cons_self c t))
    · rw [if_neg hc]
      exact ih A cols (fun d hd => h d (List.mem_cons_of_mem _ hd))

/-- C6 counterexample: a dataset carrying a raw timestamp column without its
pair partner keeps it: the final schema of the column pipeline still contains
the raw timestamp column `ANKUNFTSZEIT`. -/
theorem columnPipeline_counterexample :
    pipelineCols ["ANKUNFTSZEIT"] [] = ["ANKUNFTSZEIT"]
    ∧ "ANKUNFTSZEIT" ∈ tsRawNames := by decide

/-- C6 amended: provided each timestamp pair is present or absent as a whole
in the selected columns (and no input column reuses a reserved derived name),
the final dataset contains no raw timestamp column; every pre-encoding
categorical/boolean column is dropped unconditionally; and the surviving
original columns keep their relative order end-to-end. -/
theorem columnPipeline_amended (allCols excl : List String)
    (hpair : ∀ p ∈ timestamp_pairs,
      (p.1 ∈ neededColumns allCols excl ↔ p.2.1 ∈ neededColumns allCols excl))
    (hfresh : ∀ c ∈ allCols, c ∉ reservedNames) :
    (∀ t ∈ tsRawNames, t ∉ pipelineCols allCols excl)
    ∧ (∀ c ∈ bool_columns ++ categorical_columns, c ∉ pipelineCols allCols excl)
    ∧ ((pipelineCols allCols excl).filter
        (fun c => decide (c ∈ allCols))).Sublist allCols := by
  refine ⟨?_, ?_, ?_⟩
  · intro t ht hmem
    have hencne : ∀ u ∈ tsRawNames, ∀ c ∈ bool_columns ++ categorical_columns,
        u ≠ c ++ "_encoded" := by decide
    rw [pipelineCols, dropOriginalsCols] at hmem
    have h3 := (List.mem_filter.mp hmem).1
    have h2 := mem_encodeStageCols _ _ h3 (hencne t ht)
    refine tsRaw_not_mem_tsStage (filterStageCols (neededColumns allCols excl))
      t ht ?_ h2
    intro p hp
    have hstat : ∀ q ∈ timestamp_pairs, q.1 ≠ anStatus ∧ q.1 ≠ abStatus
        ∧ q.2.1 ≠ anStatus ∧ q.2.1 ≠ abStatus := by decide
    obtain ⟨s1, s2, s3, s4⟩ := hstat p hp
    rw [mem_filterStageCols _ p.1 s1 s2, mem_filterStageCols _ p.2.1 s3 s4]
    exact hpair p hp
  · intro c hc hmem
    rw [pipelineCols, dropOriginalsCols] at hmem
    have h := (List.mem_filter.mp hmem).2
    simp [hc] at h
  · have hres : ∀ c ∈ reservedNames, c ∉ allCols := fun c hc hca => hfresh c hca hc
    have hAllNew : ∀ p ∈ timestamp_pairs, p.2.2 ∈ reservedNames
        ∧ (∀ s ∈ derivedSuffixes, (p.1 ++ s) ∈ reservedNames)
        ∧ (∀ s ∈ derivedSuffixes, (p.2.1 ++ s) ∈ reservedNames) := by decide
    have hEncRes : ∀ c ∈ bool_columns ++ categorical_columns,
        (c ++ "_encoded") ∈ reservedNames := by decide
    have h00 : (neededColumns allCols excl).filter (fun c => decide (c ∈ allCols))
        = neededColumns allCols excl := by
      rw [List.filter_eq_self]
      intro a ha
      rw [neededColumns] at ha
      exact decide_eq_true (List.mem_filter.mp ha).1
    have h0s : (neededColumns allCols excl).Sublist allCols := by
      rw [neededColumns]
      exact List.filter_sublist _
    have h1 : ((filterStageCols (neededColumns allCols excl)).filter
          (fun c => decide (c ∈ allCols))).Sublist
        ((neededColumns allCols excl).filter (fun c => decide (c ∈ allCols))) := by
      rw [filterStageCols]
      by_cases hg : anStatus ∈ neededColumns allCols excl
          ∧ abStatus ∈ neededColumns allCols excl
      · rw [if_pos hg, filter_swap]
        exact List.filter_sublist _
      · rw [if_neg hg]
    have hstep : ∀ p ∈ timestamp_pairs, ∀ (cs : List String),
        ((tsStageStep cs p).filter (fun c => decide (c ∈ allCols))).Sublist
          (cs.filter (fun c => decide (c ∈ allCols))) := by
      intro p hp cs
      obtain ⟨e1, e2, e3⟩ := hAllNew p hp
      exact filterMem_tsStageStep allCols cs p (hres _ e1)
        (fun s hs => hres _ (e2 s hs)) (fun s hs => hres _ (e3 s hs))
    have hts : ((tsStageCols (filterStageCols (neededColumns allCols excl))).filter
          (fun c => decide (c ∈ allCols))).Sublist
        ((filterStageCols (neededColumns allCols excl)).filter
          (fun c => decide (c ∈ allCols))) := by
      rw [show tsStageCols (filterStageCols (neededColumns allCols excl))
          = tsStageStep (tsStageStep (filterStageCols (neededColumns allCols excl))
              ("ANKUNFTSZEIT", "AN_PROGNOSE", "ARRIVAL_TIME_DIFF_SECONDS"))
              ("ABFAHRTSZEIT", "AB_PROGNOSE", "DEPARTURE_TIME_DIFF_SECONDS") from rfl]
      exact (hstep _ (by decide) _).trans (hstep _ (by decide) _)
    have henceq : ((encodeStageCols (tsStageCols (filterStageCols
            (neededColumns allCols excl)))).filter (fun c => decide (c ∈ allCols)))
        = ((tsStageCols (filterStageCols (neededColumns allCols excl))).filter
            (fun c => decide (c ∈ allCols))) := by
      rw [encodeStageCols]
      rw [filterMem_encodeFold categorical_columns allCols _
        (fun c hc => hres _ (hEncRes c (List.mem_append.mpr (Or.inr hc))))]
      rw [filterMem_encodeFold bool_columns allCols _
        (fun c hc => hres _ (hEncRes c (List.mem_append.mpr (Or.inl hc))))]
    have hdrop : ((pipelineCols allCols excl).filter
          (fun c => decide (c ∈ allCols))).Sublist
        ((encodeStageCols (tsStageCols (filterStageCols
            (neededColumns allCols excl)))).filter (fun c => decide (c ∈ allCols))) := by
      rw [pipelineCols, dropOriginalsCols, filter_swap]
      exact List.filter_sublist _
    have hts1 := hts.trans h1
    rw [← henceq] at hts1
    have hchain := hdrop.trans hts1
    rw [h00] at hchain
    exact hchain.trans h0s

theorem columnPipeline_amended_witness :
    ((∀ p ∈ timestamp_pairs,
      (p.1 ∈ neededColumns
          ["BETRIEBSTAG", "FAHRT_BEZEICHNER", "BETREIBER_ID", "BETREIBER_ABK",
           "BETREIBER_NAME", "PRODUKT_ID", "LINIEN_ID", "LINIEN_TEXT",
           "UMLAUF_ID", "VERKEHRSMITTEL_TEXT", "ZUSATZFAHRT_TF", "FAELLT_AUS_TF",
           "BPUIC", "HALTESTELLEN_NAME", "ANKUNFTSZEIT", "AN_PROGNOSE",
           "AN_PROGNOSE_STATUS", "ABFAHRTSZEIT", "AB_PROGNOSE",
           "AB_PROGNOSE_STATUS", "DURCHFAHRT_TF"]
          ["PRODUKT_ID", "BETREIBER_NAME", "BETREIBER_ID", "UMLAUF_ID",
           "VERKEHRSMITTEL_TEXT", "HALTESTELLEN_NAME", "BETRIEBSTAG"]
        ↔ p.2.1 ∈ neededColumns
          ["BETRIEBSTAG", "FAHRT_BEZEICHNER", "BETREIBER_ID", "BETREIBER_ABK",
           "BETREIBER_NAME", "PRODUKT_ID", "LINIEN_ID", "LINIEN_TEXT",
           "UMLAUF_ID", "VERKEHRSMITTEL_TEXT", "ZUSATZFAHRT_TF", "FAELLT_AUS_TF",
           "BPUIC", "HALTESTELLEN_NAME", "ANKUNFTSZEIT", "AN_PROGNOSE",
           "AN_PROGNOSE_STATUS", "ABFAHRTSZEIT", "AB_PROGNOSE",
           "AB_PROGNOSE_STATUS", "DURCHFAHRT_TF"]
          ["PRODUKT_ID", "BETREIBER_NAME", "BETREIBER_ID", "UMLAUF_ID",
           "VERKEHRSMITTEL_TEXT", "HALTESTELLEN_NAME", "BETRIEBSTAG"]))
      ∧ (∀ c ∈ ["BETRIEBSTAG", "FAHRT_BEZEICHNER", "BETREIBER_ID", "BETREIBER_ABK",
           "BETREIBER_NAME", "PRODUKT_ID", "LINIEN_ID", "LINIEN_TEXT",
           "UMLAUF_ID", "VERKEHRSMITTEL_TEXT", "ZUSATZFAHRT_TF", "FAELLT_AUS_TF",
           "BPUIC", "HALTESTELLEN_NAME", "ANKUNFTSZEIT", "AN_PROGNOSE",
           "AN_PROGNOSE_STATUS", "ABFAHRTSZEIT", "AB_PROGNOSE",
           "AB_PROGNOSE_STATUS", "DURCHFAHRT_TF"], c ∉ reservedNames))
    ∧ "ANKUNFTSZEIT" ∉ pipelineCols
        ["BETRIEBSTAG", "FAHRT_BEZEICHNER", "BETREIBER_ID", "BETREIBER_ABK",
         "BETREIBER_NAME", "PRODUKT_ID", "LINIEN_ID", "LINIEN_TEXT",
         "UMLAUF_ID", "VERKEHRSMITTEL_TEXT", "ZUSATZFAHRT_TF", "FAELLT_AUS_TF",
         "BPUIC", "HALTESTELLEN_NAME", "ANKUNFTSZEIT", "AN_PROGNOSE",
         "AN_PROGNOSE_STATUS", "ABFAHRTSZEIT", "AB_PROGNOSE",
         "AB_PROGNOSE_STATUS", "DURCHFAHRT_TF"]
        ["PRODUKT_ID", "BETREIBER_NAME", "BETREIBER_ID", "UMLAUF_ID",
         "VERKEHRSMITTEL_TEXT", "HALTESTELLEN_NAME", "BETRIEBSTAG"]
    ∧ ((pipelineCols
        ["BETRIEBSTAG", "FAHRT_BEZEICHNER", "BETREIBER_ID", "BETREIBER_ABK",
         "BETREIBER_NAME", "PRODUKT_ID", "LINIEN_ID", "LINIEN_TEXT",
         "UMLAUF_ID", "VERKEHRSMITTEL_TEXT", "ZUSATZFAHRT_TF", "FAELLT_AUS_TF",
         "BPUIC", "HALTESTELLEN_NAME", "ANKUNFTSZEIT", "AN_PROGNOSE",
         "AN_PROGNOSE_STATUS", "ABFAHRTSZEIT", "AB_PROGNOSE",
         "AB_PROGNOSE_STATUS", "DURCHFAHRT_TF"]
        ["PRODUKT_ID", "BETREIBER_NAME", "BETREIBER_ID", "UMLAUF_ID",
         "VERKEHRSMITTEL_TEXT", "HALTESTELLEN_NAME", "BETRIEBSTAG"]).filter
        (fun c => decide (c ∈
          ["BETRIEBSTAG", "FAHRT_BEZEICHNER", "BETREIBER_ID", "BETREIBER_ABK",
           "BETREIBER_NAME", "PRODUKT_ID", "LINIEN_ID", "LINIEN_TEXT",
           "UMLAUF_ID", "VERKEHRSMITTEL_TEXT", "ZUSATZFAHRT_TF", "FAELLT_AUS_TF",
           "BPUIC", "HALTESTELLEN_NAME", "ANKUNFTSZEIT", "AN_PROGNOSE",
           "AN_PROGNOSE_STATUS", "ABFAHRTSZEIT", "AB_PROGNOSE",
           "AB_PROGNOSE_STATUS", "DURCHFAHRT_TF"]))).Sublist
        ["BETRIEBSTAG", "FAHRT_BEZEICHNER", "BETREIBER_ID", "BETREIBER_ABK",
         "BETREIBER_NAME", "PRODUKT_ID", "LINIEN_ID", "LINIEN_TEXT",
         "UMLAUF_ID", "VERKEHRSMITTEL_TEXT", "ZUSATZFAHRT_TF", "FAELLT_AUS_TF",
         "BPUIC", "HALTESTELLEN_NAME", "ANKUNFTSZEIT", "AN_PROGNOSE",
         "AN_PROGNOSE_STATUS", "ABFAHRTSZEIT", "AB_PROGNOSE",
         "AB_PROGNOSE_STATUS", "DURCHFAHRT_TF"] :=
  ⟨⟨by decide, by decide⟩,
    (columnPipeline_amended
      ["BETRIEBSTAG", "FAHRT_BEZEICHNER", "BETREIBER_ID", "BETREIBER_ABK",
       "BETREIBER_NAME", "PRODUKT_ID", "LINIEN_ID", "LINIEN_TEXT",
       "UMLAUF_ID", "VERKEHRSMITTEL_TEXT", "ZUSATZFAHRT_TF", "FAELLT_AUS_TF",
       "BPUIC", "HALTESTELLEN_NAME", "ANKUNFTSZEIT", "AN_PROGNOSE",
       "AN_PROGNOSE_STATUS", "ABFAHRTSZEIT", "AB_PROGNOSE",
       "AB_PROGNOSE_STATUS", "DURCHFAHRT_TF"]
      ["PRODUKT_ID", "BETREIBER_NAME", "BETREIBER_ID", "UMLAUF_ID",
       "VERKEHRSMITTEL_TEXT", "HALTESTELLEN_NAME", "BETRIEBSTAG"]
      (by decide) (by decide)).1 "ANKUNFTSZEIT" (by decide),
    (columnPipeline_amended
      ["BETRIEBSTAG", "FAHRT_BEZEICHNER", "BETREIBER_ID", "BETREIBER_ABK",
       "BETREIBER_NAME", "PRODUKT_ID", "LINIEN_ID", "LINIEN_TEXT",
       "UMLAUF_ID", "VERKEHRSMITTEL_TEXT", "ZUSATZFAHRT_TF", "FAELLT_AUS_TF",
       "BPUIC", "HALTESTELLEN_NAME", "ANKUNFTSZEIT", "AN_PROGNOSE",
       "AN_PROGNOSE_STATUS", "ABFAHRTSZEIT", "AB_PROGNOSE",
       "AB_PROGNOSE_STATUS", "DURCHFAHRT_TF"]
      ["PRODUKT_ID", "BETREIBER_NAME", "BETREIBER_ID", "UMLAUF_ID",
       "VERKEHRSMITTEL_TEXT", "HALTESTELLEN_NAME", "BETRIEBSTAG"]
      (by decide) (by decide)).2.2⟩
